import Mathlib

/-!
# linkedin-automation: a verification development

A shallow embedding of the interaction-humanisation and rate-governance code of the
repository (`internal/config/config.go`, `internal/storage/storage.go`,
`cmd/linkedin-bot/bot.go`, `cmd/linkedin-bot/main.go`) together with theorems about it.

Conventions of the embedding.

* Go's `int` is modelled by `Int`; where the source does arithmetic on values that are not
  bounded by small constants the result is reduced with `wrap64` (two's complement, 64 bit).
* A Go `error` result is an `Option String`: `none` is `nil`.
* A panic (a failed `Must...` call, `Intn` with a non-positive bound) ends the run; functions
  that can panic return an outcome that says so.
* Calls to the browser and calls to `time.Sleep` are recorded, in order, as a list of `Event`s.
  What the browser answers (whether a page loads, which elements a selector finds) is a
  parameter; a click, an input, a key press, a scroll or a pointer move on the page is taken
  to succeed.
* The random source is the sequence of raw values it will deliver; `Intn(n)` reduces the next
  one modulo `n`, so that every result the real source can give is covered.
* Logger calls have no effect on the values computed and are left out.
-/

namespace LinkedinAutomation

/-! ## internal/config/config.go -/

/-- AutomationConfig holds settings related to automation limits. -/
structure AutomationConfig where
  DailyConnectionLimit : Int
  DailyMessageLimit : Int
  ConnectionNoteMaxLength : Int
  deriving Repr, DecidableEq

/-- TimingConfig holds timing-related settings. -/
structure TimingConfig where
  MinDelaySeconds : Int
  MaxDelaySeconds : Int
  TypingSpeedMinMs : Int
  TypingSpeedMaxMs : Int
  PageLoadTimeout : Int
  NavigationTimeout : Int
  deriving Repr, DecidableEq

/-- StealthConfig holds the humanisation toggles. -/
structure StealthConfig where
  RandomScrolling : Bool
  HumanTyping : Bool
  MouseMovement : Bool
  BusinessHoursOnly : Bool
  deriving Repr, DecidableEq

/-- The anonymous struct of `BrowserConfig.Viewport`. -/
structure Viewport where
  Width : Int
  Height : Int
  deriving Repr, DecidableEq

/-- BrowserConfig holds browser-specific settings. -/
structure BrowserConfig where
  Headless : Bool
  UserAgent : String
  Viewport : Viewport
  deriving Repr, DecidableEq

/-- Config holds all configuration for the bot. -/
structure Config where
  Automation : AutomationConfig
  Timing : TimingConfig
  Stealth : StealthConfig
  Browser : BrowserConfig
  deriving Repr, DecidableEq

/-- DefaultConfig returns a configuration with the defaults of the source. -/
def DefaultConfig : Config where
  Automation := { DailyConnectionLimit := 30, DailyMessageLimit := 50, ConnectionNoteMaxLength := 300 }
  Timing := { MinDelaySeconds := 2, MaxDelaySeconds := 5, TypingSpeedMinMs := 50,
              TypingSpeedMaxMs := 150, PageLoadTimeout := 30, NavigationTimeout := 60 }
  Stealth := { RandomScrolling := true, HumanTyping := true, MouseMovement := true,
               BusinessHoursOnly := true }
  Browser := { Headless := false,
               UserAgent := "Mozilla/5.0 (Windows NT 10.0; Win64; x64) AppleWebKit/537.36 (KHTML, like Gecko) Chrome/120.0.0.0 Safari/537.36",
               Viewport := { Width := 1920, Height := 1080 } }

/-- Validate checks the configuration; the checks run in the order of the source and the first
one that fails gives the error. -/
def Config.Validate (c : Config) : Option String :=
  if c.Automation.DailyConnectionLimit ≤ 0 then
    some "daily_connection_limit must be greater than 0"
  else if c.Automation.DailyMessageLimit ≤ 0 then
    some "daily_message_limit must be greater than 0"
  else if c.Automation.ConnectionNoteMaxLength ≤ 0 ∨ c.Automation.ConnectionNoteMaxLength > 300 then
    some "connection_note_max_length must be between 1 and 300"
  else if c.Timing.MinDelaySeconds < 0 then
    some "min_delay_seconds must be 0 or greater"
  else if c.Timing.MaxDelaySeconds < c.Timing.MinDelaySeconds then
    some "max_delay_seconds must be greater than or equal to min_delay_seconds"
  else if c.Timing.TypingSpeedMinMs ≤ 0 ∨ c.Timing.TypingSpeedMaxMs ≤ c.Timing.TypingSpeedMinMs then
    some "typing_speed_max_ms must be greater than typing_speed_min_ms"
  else if c.Timing.PageLoadTimeout ≤ 0 ∨ c.Timing.NavigationTimeout ≤ 0 then
    some "timeout values must be greater than 0"
  else if c.Browser.Viewport.Width ≤ 0 ∨ c.Browser.Viewport.Height ≤ 0 then
    some "viewport dimensions must be greater than 0"
  else
    none

/-- The conditions of the configuration contract, all together. -/
def Config.InRange (c : Config) : Prop :=
  0 < c.Automation.DailyConnectionLimit ∧
  0 < c.Automation.DailyMessageLimit ∧
  1 ≤ c.Automation.ConnectionNoteMaxLength ∧ c.Automation.ConnectionNoteMaxLength ≤ 300 ∧
  0 ≤ c.Timing.MinDelaySeconds ∧
  c.Timing.MinDelaySeconds ≤ c.Timing.MaxDelaySeconds ∧
  0 < c.Timing.TypingSpeedMinMs ∧
  c.Timing.TypingSpeedMinMs < c.Timing.TypingSpeedMaxMs ∧
  0 < c.Timing.PageLoadTimeout ∧
  0 < c.Timing.NavigationTimeout ∧
  0 < c.Browser.Viewport.Width ∧
  0 < c.Browser.Viewport.Height

/-! ## internal/storage/storage.go -/

namespace Storage

/-- A row of table `connection_requests`, column by column as `createTables` declares it.
`profile_name` and `sent_at` are `NOT NULL`, `note` is nullable, `created_at` has a default. -/
structure Row where
  id : String
  profile_url : String
  profile_name : String
  sent_at : String
  accepted : Bool
  note : Option String
  created_at : String
  deriving Repr, DecidableEq

/-- The database file: the table `connection_requests` when it exists. -/
structure DB where
  connection_requests : Option (List Row)
  deriving Repr, DecidableEq

/-- The one statement of `createTables`, `CREATE TABLE IF NOT EXISTS connection_requests`:
an existing table is kept as it is, a missing one is created empty. -/
def createTables (db : DB) : DB :=
  match db.connection_requests with
  | some _ => db
  | none => { connection_requests := some [] }

/-- The constraint a rejected insert violated: `id TEXT PRIMARY KEY` or
`profile_url TEXT NOT NULL UNIQUE`. -/
inductive ConstraintError where
  | PrimaryKey
  | UniqueProfileUrl
  deriving Repr, DecidableEq

/-- An `INSERT` of one row under the two key constraints of the schema of `createTables`:
a row whose `id` or whose `profile_url` is already in the table is rejected and the table
stays as it was; any other row is appended. -/
def insertRow (t : List Row) (r : Row) : List Row × Option ConstraintError :=
  if r.id ∈ t.map Row.id then (t, some .PrimaryKey)
  else if r.profile_url ∈ t.map Row.profile_url then (t, some .UniqueProfileUrl)
  else (t ++ [r], none)

/-- The fields of an outreach record the caller supplies; `id` and `createdAt` are assigned
at insertion and `accepted` starts false. -/
structure OutreachRecord where
  profileUrl : String
  profileName : String
  sentAt : String
  note : Option String
  deriving Repr, DecidableEq

/-- The errors of the ledger. -/
inductive LedgerError where
  | DuplicateKey
  | IdCollision
  deriving Repr, DecidableEq

/-- Modelled from the spec: `recordOutreach`, the insert operation of the ledger, which
`storage.go` does not contain (it has the schema only). The spec: "inserts; fails with
`DuplicateKey` if `profileUrl` already present (must not silently overwrite)", with `id` an
"opaque unique identifier, assigned at creation" and `createdAt` the insertion timestamp.
`newId` is the generator of identifiers (given the identifiers in use) and `now` the
timestamp of the insertion. The insert itself is `insertRow`, under the schema of the source. -/
def recordOutreach (newId : List String → String) (now : String) (t : List Row)
    (rec : OutreachRecord) : List Row × Option LedgerError :=
  let row : Row :=
    { id := newId (t.map Row.id), profile_url := rec.profileUrl, profile_name := rec.profileName,
      sent_at := rec.sentAt, accepted := false, note := rec.note, created_at := now }
  match insertRow t row with
  | (t1, none) => (t1, none)
  | (t1, some .UniqueProfileUrl) => (t1, some .DuplicateKey)
  | (t1, some .PrimaryKey) => (t1, some .IdCollision)

/-- The ledger after a sequence of `recordOutreach` calls, whatever each of them returned. -/
def recordAll (newId : List String → String) (now : String) (t : List Row)
    (recs : List OutreachRecord) : List Row :=
  recs.foldl (fun acc rec => (recordOutreach newId now acc rec).1) t

/-- The number of records the ledger holds for a profile URL. -/
def recordsFor (t : List Row) (url : String) : Nat :=
  (t.filter (fun r => r.profile_url = url)).length

/-- An identifier generator that is fresh by length: one character longer than the longest
identifier in use. -/
def longerId (ids : List String) : String :=
  String.mk (List.replicate (ids.foldr (fun s n => max s.length n) 0 + 1) 'r')

end Storage

/-! ## Machine integers, time, events and the random source -/

/-- Go's `int` on a 64-bit platform: the two's complement value of an integer result. -/
def wrap64 (x : Int) : Int :=
  (x + 9223372036854775808) % 18446744073709551616 - 9223372036854775808

/-- The unit `time.Millisecond`, in nanoseconds. -/
def Millisecond : Int := 1000000

/-- The unit `time.Second`, in nanoseconds. -/
def Second : Int := 1000000000

/-- The unit `time.Minute`, in nanoseconds. -/
def Minute : Int := 60000000000

/-- The unit `time.Hour`, in nanoseconds. -/
def Hour : Int := 3600000000000

/-- The type `time.Weekday`; Sunday is 0. -/
inductive Weekday where
  | Sunday
  | Monday
  | Tuesday
  | Wednesday
  | Thursday
  | Friday
  | Saturday
  deriving Repr, DecidableEq

/-- The integer value of a weekday constant. -/
def Weekday.toInt : Weekday → Int
  | .Sunday => 0
  | .Monday => 1
  | .Tuesday => 2
  | .Wednesday => 3
  | .Thursday => 4
  | .Friday => 5
  | .Saturday => 6

/-- The weekday with a given index, taken modulo 7. -/
def Weekday.ofIndex (n : Nat) : Weekday :=
  match n % 7 with
  | 0 => .Sunday
  | 1 => .Monday
  | 2 => .Tuesday
  | 3 => .Wednesday
  | 4 => .Thursday
  | 5 => .Friday
  | _ => .Saturday

/-- A `time.Time`: an instant, in nanoseconds since the Unix epoch, and the offset of its
location, in seconds east of UTC. -/
structure Time where
  unixNano : Int
  offset : Int
  deriving Repr, DecidableEq

/-- Seconds from the zero time of package `time` (January 1, year 1, UTC) to the Unix epoch. -/
def unixToInternal : Int := 62135596800

/-- The seconds since the Unix epoch that the local clock of the location shows. -/
def Time.localSeconds (t : Time) : Int := t.unixNano / Second + t.offset

/-- The method `Time.Hour`: the hour within the day, in `[0, 23]`, in the location of `t`. -/
def Time.Hour (t : Time) : Int := t.localSeconds % 86400 / 3600

/-- The method `Time.Weekday`: the day of the week in the location of `t` (the Unix epoch
was a Thursday). -/
def Time.Weekday (t : Time) : Weekday := Weekday.ofIndex ((t.localSeconds / 86400 + 4) % 7).toNat

/-- The method `Time.Truncate`: `t` rounded down to a multiple of `d` since the zero time;
`t` itself when `d <= 0`. -/
def Time.Truncate (t : Time) (d : Int) : Time :=
  if d ≤ 0 then t
  else { t with unixNano := t.unixNano - (t.unixNano + unixToInternal * Second) % d }

/-- The method `Time.Add`. -/
def Time.Add (t : Time) (d : Int) : Time := { t with unixNano := t.unixNano + d }

/-- The method `Time.Sub`, the duration `t - u`. -/
def Time.Sub (t u : Time) : Int := t.unixNano - u.unixNano

/-- The clock after `time.Sleep(d)`: a sleep of a non-positive duration returns at once, any
other is taken to last exactly `d`. -/
def Time.afterSleep (t : Time) (d : Int) : Time := if d ≤ 0 then t else t.Add d

/-- A call on the browser, or a sleep, in the order the program makes them. -/
inductive Event where
  | navigate (url : String)
  | waitLoad
  | elements (selector : String)
  | property (index : Nat) (name : String)
  | click (selector : String)
  | input (text : String)
  | press (key : Char)
  | scroll (dx dy : Int)
  | move (x y : Int)
  | shape
  | scrollIntoView
  | waitVisible
  | sleep (ns : Int)
  deriving Repr, DecidableEq

/-- Whether an event is a call on the browser (everything but a sleep). -/
def Event.isBrowser : Event → Bool
  | .sleep _ => false
  | _ => true

/-- A `*rand.Rand`: the raw values the source will deliver, and how many were consumed. -/
structure Rand where
  stream : Nat → Nat
  pos : Nat

/-- The next raw value and the source after it. -/
def Rand.draw (r : Rand) : Nat × Rand := (r.stream r.pos, { r with pos := r.pos + 1 })

/-- The method `Intn`: panics (`none`) when `n <= 0`, else a value in `[0, n)`; every value of
that range is returned for some raw value. -/
def Rand.Intn (r : Rand) (n : Int) : Option (Int × Rand) :=
  if n ≤ 0 then none else some (((r.draw.1 % n.toNat : Nat) : Int), r.draw.2)

/-- The method `Float64`: a value `k / 2^53` of `[0, 1)`, given by its numerator `k`. -/
def Rand.Float64 (r : Rand) : Nat × Rand := (r.draw.1 % 9007199254740992, r.draw.2)

/-- The comparison `f < p / q` for a `Float64` result `f = k / 2^53`. The constants compared
with in the source are 0.05, 0.3 and 0.5; for each of them the comparison with the nearest
double and the comparison with the fraction agree at every `k`. -/
def ltFrac (k p q : Nat) : Bool := decide (k * q < p * 9007199254740992)

/-- What a piece of the program did: the events it issued, the random source it left, and its
value, `none` when it panicked. -/
structure Outcome (α : Type) where
  events : List Event
  rand : Rand
  value : Option α

/-- A piece of the program that draws from `b.rand` and issues events. -/
def Run (α : Type) : Type := Rand → Outcome α

/-- A piece that does nothing and returns `a`. -/
def Run.pure {α : Type} (a : α) : Run α := fun r => ⟨[], r, some a⟩

/-- Sequencing: a panic of the first piece ends the run. -/
def Run.bind {α β : Type} (m : Run α) (f : α → Run β) : Run β := fun r =>
  match (m r).value with
  | none => ⟨(m r).events, (m r).rand, none⟩
  | some a => ⟨(m r).events ++ (f a (m r).rand).events, (f a (m r).rand).rand,
               (f a (m r).rand).value⟩

instance : Monad Run where
  pure := Run.pure
  bind := Run.bind

/-- Issue one event. -/
def emit (e : Event) : Run Unit := fun r => ⟨[e], r, some ()⟩

/-- The call `time.Sleep(d)`. -/
def sleep (ns : Int) : Run Unit := emit (.sleep ns)

/-- Issue a list of events, in order. -/
def emitAll (es : List Event) : Run Unit := fun r => ⟨es, r, some ()⟩

/-- A panic. -/
def panic {α : Type} : Run α := fun r => ⟨[], r, none⟩

/-- The call `b.rand.Intn(n)`. -/
def Intn (n : Int) : Run Int := fun r =>
  match r.Intn n with
  | none => ⟨[], r, none⟩
  | some v => ⟨[], v.2, some v.1⟩

/-- The call `b.rand.Float64()`. -/
def Float64 : Run Nat := fun r => ⟨[], r.Float64.2, some r.Float64.1⟩

/-- A counted loop `for i := i0; ...; i++` of `n` iterations. -/
def forRange (body : Int → Run Unit) : Nat → Int → Run Unit
  | 0, _ => pure ()
  | n + 1, i => do
    body i
    forRange body n (i + 1)

/-- A loop `for _, a := range as`. -/
def forEach {α : Type} (body : α → Run Unit) : List α → Run Unit
  | [] => pure ()
  | a :: as => do
    body a
    forEach body as

/-- The call `strings.Contains(s, substr)`. -/
def Contains (s substr : String) : Bool := decide (substr.toList <:+: s.toList)

/-- The arithmetic of `float64` the source uses, kept abstract: conversions from and to `int`
and the four operations. -/
structure Float64Ops where
  F : Type
  ofInt : Int → F
  toInt : F → Int
  add : F → F → F
  sub : F → F → F
  mul : F → F → F
  div : F → F → F

/-- The bounds of an element as `element.Shape()` gives them. -/
structure Rect (F : Type) where
  X : F
  Y : F
  Width : F
  Height : F

/-- Exact rational arithmetic as an instance of `Float64Ops`; conversion to `int` truncates. -/
def ratOps : Float64Ops where
  F := ℚ
  ofInt := fun n => (n : ℚ)
  toInt := fun q => Int.tdiv q.num q.den
  add := fun a b => a + b
  sub := fun a b => a - b
  mul := fun a b => a * b
  div := fun a b => a / b

/-! ## internal/config/config.go: the schedule gate -/

/-- The body of `Config.IsBusinessHours` once the clock is read: `weekday` and `hour` are
`now.Weekday()` and `now.Hour()`. -/
def Config.IsBusinessHoursAt (c : Config) (weekday : Weekday) (hour : Int) : Bool :=
  if !c.Stealth.BusinessHoursOnly then true
  else
    decide (weekday.toInt ≥ Weekday.Monday.toInt) &&
      decide (weekday.toInt ≤ Weekday.Friday.toInt) &&
      decide (hour ≥ 9) && decide (hour < 17)

/-- IsBusinessHours checks if the time `now` is within business hours. -/
def Config.IsBusinessHours (c : Config) (now : Time) : Bool :=
  c.IsBusinessHoursAt now.Weekday now.Hour

/-! ## cmd/linkedin-bot/bot.go -/

namespace Bot

/-- The value `b.rand.Intn(max-min+1)+min` of `randomDelay`, the delay in seconds. -/
def randomDelaySeconds (c : Config) : Run Int := do
  let min := c.Timing.MinDelaySeconds
  let max := c.Timing.MaxDelaySeconds
  let n ← Intn (wrap64 (wrap64 (max - min) + 1))
  pure (wrap64 (n + min))

/-- randomDelay pauses execution for a random duration between min and max seconds. -/
def randomDelay (c : Config) : Run Unit := do
  let d ← randomDelaySeconds c
  sleep (wrap64 (d * Second))

/-- The body of the typo branch of `humanType`: a random wrong character (a-z), a wait, a
backspace and a second wait. -/
def injectTypo : Run Unit := do
  let w ← Intn 26
  emit (.input (String.singleton (Char.ofNat ('a'.toNat + w.toNat))))
  let d1 ← Intn 201
  sleep ((100 + d1) * Millisecond)
  emit (.press '\x08')
  let d2 ← Intn 101
  sleep ((50 + d2) * Millisecond)

/-- One iteration of the loop of `humanType`: with a 5% chance a typo, then the character and
the pause after it. `Float64` is drawn only when `HumanTyping` is on (the `&&` of the source). -/
def humanTypeChar (c : Config) (minSpeed maxSpeed : Int) (char : Char) : Run Unit := do
  let typo ← (if c.Stealth.HumanTyping then do
                let f ← Float64
                pure (ltFrac f 1 20)
              else pure false)
  (if typo then injectTypo else pure ())
  emit (.input (String.singleton char))
  let d ← Intn (wrap64 (wrap64 (maxSpeed - minSpeed) + 1))
  sleep (wrap64 (wrap64 (minSpeed + d) * Millisecond))

/-- humanType types `text` into an element, with random delays and occasional typos; the
result is the error it returns (always `nil`). -/
def humanType (c : Config) (text : String) : Run (Option String) :=
  if !c.Stealth.HumanTyping then do
    emit (.input text)
    pure none
  else do
    let minSpeed := c.Timing.TypingSpeedMinMs
    let maxSpeed := c.Timing.TypingSpeedMaxMs
    forEach (humanTypeChar c minSpeed maxSpeed) text.toList
    pure none

/-- humanScroll scrolls the page down in steps and sometimes back a bit. -/
def humanScroll (c : Config) : Run Unit :=
  if !c.Stealth.RandomScrolling then pure ()
  else do
    let a ← Intn 401
    let totalDistance := 200 + a
    let b ← Intn 11
    let steps := 10 + b
    let stepSize := Int.tdiv totalDistance steps
    forRange (fun _ => do
      emit (.scroll 0 stepSize)
      let d ← Intn 31
      sleep ((20 + d) * Millisecond)) steps.toNat 0
    let f ← Float64
    if ltFrac f 3 10 then do
      let d ← Intn 301
      sleep ((200 + d) * Millisecond)
      let back ← Intn 101
      let scrollBack := -50 - back
      emit (.scroll 0 scrollBack)
    else pure ()

/-- One iteration of the curve loop of `moveMouseToElement`, at loop index `i`. -/
def bezierStep (fl : Float64Ops) (startX startY targetX targetY steps : Int) (i : Int) :
    Run Unit := do
  let t := fl.div (fl.ofInt i) (fl.ofInt steps)
  let rx ← Intn 100
  let cx := wrap64 (wrap64 (startX + Int.tdiv (wrap64 (targetX - startX)) 2) + (rx - 50))
  let ry ← Intn 100
  let cy := wrap64 (wrap64 (startY + Int.tdiv (wrap64 (targetY - startY)) 2) + (ry - 50))
  let one := fl.ofInt 1
  let two := fl.ofInt 2
  let x := fl.toInt (fl.add
    (fl.add (fl.mul (fl.mul (fl.sub one t) (fl.sub one t)) (fl.ofInt startX))
            (fl.mul (fl.mul (fl.mul two (fl.sub one t)) t) (fl.ofInt cx)))
    (fl.mul (fl.mul t t) (fl.ofInt targetX)))
  let y := fl.toInt (fl.add
    (fl.add (fl.mul (fl.mul (fl.sub one t) (fl.sub one t)) (fl.ofInt startY))
            (fl.mul (fl.mul (fl.mul two (fl.sub one t)) t) (fl.ofInt cy)))
    (fl.mul (fl.mul t t) (fl.ofInt targetY)))
  emit (.move x y)
  let d ← Intn 11
  sleep ((5 + d) * Millisecond)

/-- moveMouseToElement moves the pointer to an element along a curve, overshoots and
corrects; `shape` is what `element.Shape()` returns. The result is the error returned. -/
def moveMouseToElement (c : Config) (fl : Float64Ops) (shape : Except String (Rect fl.F)) :
    Run (Option String) :=
  if !c.Stealth.MouseMovement then do
    emit .scrollIntoView
    emit .waitVisible
    pure none
  else do
    emit .shape
    match shape with
    | .error err => pure (some ("failed to get element shape: " ++ err))
    | .ok rect =>
      emit .scrollIntoView
      let targetX := fl.toInt (fl.add rect.X (fl.div rect.Width (fl.ofInt 2)))
      let targetY := fl.toInt (fl.add rect.Y (fl.div rect.Height (fl.ofInt 2)))
      let rx ← Intn 200
      let startX := wrap64 (wrap64 (targetX - 100) + rx)
      let ry ← Intn 200
      let startY := wrap64 (wrap64 (targetY - 100) + ry)
      let s ← Intn 11
      let steps := 15 + s
      forRange (bezierStep fl startX startY targetX targetY steps) (steps + 1).toNat 0
      let ox ← Intn 11
      let overX := 10 + ox
      let oy ← Intn 11
      let overY := 10 + oy
      emit (.move (wrap64 (targetX + overX)) (wrap64 (targetY + overY)))
      let d ← Intn 51
      sleep ((50 + d) * Millisecond)
      emit (.move targetX targetY)
      pure none

/-- randomMouseMovement moves the pointer to a random position of the viewport. -/
def randomMouseMovement (c : Config) : Run Unit :=
  if !c.Stealth.MouseMovement then pure ()
  else do
    let x ← Intn c.Browser.Viewport.Width
    let y ← Intn c.Browser.Viewport.Height
    emit (.move x y)
    let d ← Intn 401
    sleep ((100 + d) * Millisecond)

/-- The body of `isBusinessHours` once the clock is read: `weekday` and `hour` are
`now.Weekday()` and `now.Hour()`. -/
def isBusinessHoursAt (c : Config) (weekday : Weekday) (hour : Int) : Bool :=
  if !c.Stealth.BusinessHoursOnly then true
  else if weekday = Weekday.Saturday ∨ weekday = Weekday.Sunday then false
  else decide (hour ≥ 9) && decide (hour < 17)

/-- isBusinessHours checks if the time `now` is within business hours (Mon-Fri, 9-17). -/
def isBusinessHours (c : Config) (now : Time) : Bool :=
  isBusinessHoursAt c now.Weekday now.Hour

/-- The instant `now.Truncate(time.Hour).Add(time.Hour)` one iteration of the wait sleeps
until. -/
def nextHour (now : Time) : Time := (now.Truncate Hour).Add Hour

/-- The loop `for !b.isBusinessHours()` of `waitForBusinessHours`, run for at most `fuel`
iterations from the clock reading `now`: the clock reading at which it ends and the sleeps
it made, or `none` when `fuel` iterations did not end it. -/
def waitLoop (c : Config) : Nat → Time → Option (Time × List Event)
  | 0, now => if isBusinessHours c now then some (now, []) else none
  | fuel + 1, now =>
    if isBusinessHours c now then some (now, [])
    else
      let sleepTime := (nextHour now).Sub now
      match waitLoop c fuel (now.afterSleep sleepTime) with
      | none => none
      | some res => some (res.1, Event.sleep sleepTime :: res.2)

/-- waitForBusinessHours waits until business hours. -/
def waitForBusinessHours (c : Config) (fuel : Nat) (now : Time) : Option (Time × List Event) :=
  if !c.Stealth.BusinessHoursOnly then some (now, [])
  else waitLoop c fuel now

/-- The two queries of `*storage.Storage` that `SearchPeople` calls. `storage.go` does not
define them; they are taken as given, each with the result it returns (a value or an error). -/
structure Store where
  GetTodayConnectionCount : Except String Int
  HasSentConnectionRequest : String → Except String Bool

/-- What the browser answers to `SearchPeople`: the error of the navigation to a URL (inside
`rod.Try`), if any, and for a selector the elements found, each given by the result of its
`Property("href")`. -/
structure Page where
  navigate : String → Option String
  elements : String → Except String (List (Except String String))

/-- The check of the daily connection limit at the head of `SearchPeople`: the error it
returns with, if any. -/
def quotaCheck (c : Config) (storage : Option Store) : Option String :=
  match storage with
  | none => none
  | some st =>
    match st.GetTodayConnectionCount with
    | .error _ => none
    | .ok count =>
      if count ≥ c.Automation.DailyConnectionLimit then
        some ("daily connection limit reached (" ++ toString count ++ "/" ++
              toString c.Automation.DailyConnectionLimit ++ ")")
      else none

/-- The loop of `SearchPeople` over the elements found, from element number `index` on, with
the profiles collected and the set `seen` so far: the profiles at the end and the `Property`
calls made. -/
def collectProfiles (storage : Option Store) (maxResults : Int) :
    List (Except String String) → Nat → List String → List String → List String × List Event
  | [], _, profiles, _ => (profiles, [])
  | element :: rest, index, profiles, seen =>
    if (profiles.length : Int) ≥ maxResults then (profiles, [])
    else
      let next : List String → List String → List String × List Event := fun ps sn =>
        ((collectProfiles storage maxResults rest (index + 1) ps sn).1,
         Event.property index "href" :: (collectProfiles storage maxResults rest (index + 1) ps sn).2)
      match element with
      | .error _ => next profiles seen
      | .ok url =>
        if Contains url "/in/" && !Contains url "/search/" then
          if !(decide (url ∈ seen)) then
            match storage with
            | some st =>
              match st.HasSentConnectionRequest url with
              | .error _ => next profiles seen
              | .ok true => next profiles seen
              | .ok false => next (profiles ++ [url]) (url :: seen)
            | none => next (profiles ++ [url]) (url :: seen)
          else next profiles seen
        else next profiles seen

/-- The part of `SearchPeople` after the wait for business hours. -/
def searchBody (c : Config) (storage : Option Store) (page : Page)
    (jobTitle location : String) (maxResults : Int) : Run (List String × Option String) :=
  match quotaCheck c storage with
  | some err => pure ([], some err)
  | none => do
    let searchQuery := jobTitle ++ " " ++ location
    let searchURL := "https://www.linkedin.com/search/results/people/?keywords=" ++ searchQuery
    emit (.navigate searchURL)
    match page.navigate searchURL with
    | some err => pure ([], some ("failed to navigate to search page: " ++ err))
    | none =>
      emit .waitLoad
      emit .waitLoad
      randomDelay c
      forRange (fun _ => do
        humanScroll c
        randomDelay c
        let wander ← (if c.Stealth.MouseMovement then do
                        let f ← Float64
                        pure (ltFrac f 1 2)
                      else pure false)
        if wander then randomMouseMovement c else pure ()) 3 0
      emit (.elements "a.app-aware-link")
      match page.elements "a.app-aware-link" with
      | .error err => pure ([], some ("failed to find profile links: " ++ err))
      | .ok elements =>
        let found := collectProfiles storage maxResults elements 0 [] []
        emitAll found.2
        pure (found.1, none)

/-- SearchPeople searches for profiles. `fuel` bounds the iterations of the wait for business
hours and `now` is the clock reading at the call; `none` when the wait did not end within
`fuel` iterations. -/
def SearchPeople (c : Config) (storage : Option Store) (page : Page) (fuel : Nat) (now : Time)
    (jobTitle location : String) (maxResults : Int) (r : Rand) :
    Option (Outcome (List String × Option String)) :=
  let gate : Option (Time × List Event) :=
    if c.Stealth.BusinessHoursOnly && !isBusinessHours c now then waitForBusinessHours c fuel now
    else some (now, [])
  match gate with
  | none => none
  | some waited =>
    let o := searchBody c storage page jobTitle location maxResults r
    some { o with events := waited.2 ++ o.events }

end Bot

/-! ## cmd/linkedin-bot/main.go -/

namespace Main

/-- What the browser answers to the program of `main.go`: whether `MustNavigate` to a URL
succeeds, whether the lookup of a selector on the page of a URL succeeds, and, for
`MustElements`, the elements a selector finds on a page, each given by its `href` attribute
(`none` when it has none). A `Must` call that does not succeed panics. -/
structure Driver where
  navigate : String → Bool
  has : String → String → Bool
  elements : String → String → List (Option String)

/-- The call `b.page.MustNavigate(url)`. -/
def mustNavigate (d : Driver) (url : String) : Run Unit := do
  emit (.navigate url)
  if d.navigate url then pure () else panic

/-- The call `b.page.MustElement(selector)` on the page of `url`. -/
def mustElement (d : Driver) (url selector : String) : Run Unit := do
  emit (.elements selector)
  if d.has url selector then pure () else panic

/-- The method `randomDelay(minMs, maxMs)` of `main.go`. -/
def randomDelay (minMs maxMs : Int) : Run Unit := do
  let n ← Intn (wrap64 (wrap64 (maxMs - minMs) + 1))
  sleep (wrap64 (wrap64 (minMs + n) * Millisecond))

/-- The method `humanType` of `main.go`: one input per character, each followed by a pause. -/
def humanType (text : String) : Run Unit :=
  forEach (fun char => do
    emit (.input (String.singleton char))
    let d ← Intn 100
    sleep ((50 + d) * Millisecond)) text.toList

/-- The loop of `SearchPeople` of `main.go` over the elements found, from element number
`index` on, with the profiles collected so far: the profiles at the end and the
`MustAttribute` calls made. -/
def collectLinks (maxResults : Int) :
    List (Option String) → Nat → List String → List String × List Event
  | [], _, profiles => (profiles, [])
  | el :: rest, index, profiles =>
    if (profiles.length : Int) ≥ maxResults then (profiles, [])
    else
      let next : List String → List String × List Event := fun ps =>
        ((collectLinks maxResults rest (index + 1) ps).1,
         Event.property index "href" :: (collectLinks maxResults rest (index + 1) ps).2)
      match el with
      | some href => if href ≠ "" then next (profiles ++ [href]) else next profiles
      | none => next profiles

/-- The method `SearchPeople` of `main.go`. -/
def SearchPeople (d : Driver) (jobTitle location : String) (maxResults : Int) :
    Run (List String × Option String) := do
  let searchQuery := if location ≠ "" then jobTitle ++ " " ++ location else jobTitle
  let searchURL := "https://www.linkedin.com/search/results/people/?keywords=" ++ searchQuery
  mustNavigate d searchURL
  emit .waitLoad
  randomDelay 3 5
  emit (.elements ".entity-result__title-text a.app-aware-link")
  let elements := d.elements searchURL ".entity-result__title-text a.app-aware-link"
  let found := collectLinks maxResults elements 0 []
  emitAll found.2
  pure (found.1, none)

/-- The part of `SendConnectionRequest` that adds a note. -/
def addNote (d : Driver) (profileURL message : String) : Run Unit :=
  if message ≠ "" then do
    emit (.elements "button:has-text('Add a note')")
    if d.has profileURL "button:has-text('Add a note')" then do
      emit (.click "button:has-text('Add a note')")
      randomDelay 1 2
      emit (.elements "textarea[name='message']")
      if d.has profileURL "textarea[name='message']" then do
        humanType message
        randomDelay 1 2
      else pure ()
    else pure ()
  else pure ()

/-- The method `SendConnectionRequest`: the error it returns (always `nil`). -/
def SendConnectionRequest (d : Driver) (profileURL message : String) : Run (Option String) := do
  mustNavigate d profileURL
  emit .waitLoad
  randomDelay 3 5
  mustElement d profileURL "button:has-text('Connect')"
  emit (.click "button:has-text('Connect')")
  randomDelay 1 2
  addNote d profileURL message
  mustElement d profileURL "button:has-text('Send')"
  emit (.click "button:has-text('Send')")
  randomDelay 2 3
  pure none

/-- The cooldown `delay := 30 + rand.Intn(61)` of the send loop, in seconds, drawn from the
global source `g`, and the source after the draw. -/
def cooldown (g : Rand) : Option (Int × Rand) :=
  match g.Intn 61 with
  | none => none
  | some v => some (30 + v.1, v.2)

/-- The loop `for i, profile := range profiles` of `main`; `g` is the global random source
of package `math/rand`, which the cooldown draws from. -/
def sendLoop (d : Driver) (message : String) : List String → Rand → Run Unit
  | [], _ => pure ()
  | profile :: rest, g => do
    let err ← SendConnectionRequest d profile message
    match err with
    | some _ => sendLoop d message rest g
    | none =>
      match cooldown g with
      | none => panic
      | some v => do
        sleep (v.1 * Second)
        sendLoop d message rest v.2

/-- The part of `main` from the search on: the search, the send loop and the final pause. A
search that returns an error ends the process (`logger.Fatalf`). -/
def mainFromSearch (d : Driver) (g : Rand) : Run Unit := do
  let searchTerm := "Software Engineer"
  let location := "India"
  let maxResults := 3
  let message := "Hi, I came across your profile and would like to connect."
  let found ← SearchPeople d searchTerm location maxResults
  match found.2 with
  | some _ => panic
  | none => do
    sendLoop d message found.1 g
    sleep (5 * Minute)

end Main

/-- Whether an event is a step of sending a connection request: a navigation, the wait for
the load, or the lookup or the click of the Connect or of the Send button. -/
def isRequestEvent : Event → Bool
  | .navigate _ => true
  | .waitLoad => true
  | .elements selector =>
    selector == "button:has-text('Connect')" || selector == "button:has-text('Send')"
  | .click selector =>
    selector == "button:has-text('Connect')" || selector == "button:has-text('Send')"
  | _ => false

/-- The steps of sending connection requests among the events of a run, in order. -/
def requestEvents (es : List Event) : List Event := es.filter isRequestEvent

/-- The steps by which `SendConnectionRequest` sends the request to one profile: it navigates
to the profile, finds and clicks Connect, then finds and clicks Send. -/
def sendSequence (profileURL : String) : List Event :=
  [.navigate profileURL, .waitLoad,
   .elements "button:has-text('Connect')", .click "button:has-text('Connect')",
   .elements "button:has-text('Send')", .click "button:has-text('Send')"]

/-- The send sequences of a list of profiles, one after the other. -/
def sendSequences : List String → List Event
  | [] => []
  | profileURL :: rest => sendSequence profileURL ++ sendSequences rest

/-- The profiles a request was sent to, in order, given the page the browser is on
(`connected` says whether Connect was clicked on it): a request is sent when Send is clicked
on a page on which Connect was clicked since the navigation to it. -/
def sentFrom : Option String → Bool → List Event → List String
  | _, _, [] => []
  | page, connected, e :: es =>
    match e with
    | .navigate url => sentFrom (some url) false es
    | .click selector =>
      if selector = "button:has-text('Connect')" then sentFrom page true es
      else if selector = "button:has-text('Send')" then
        match page, connected with
        | some url, true => url :: sentFrom page false es
        | _, _ => sentFrom page connected es
      else sentFrom page connected es
    | _ => sentFrom page connected es

/-- The profiles a connection request was sent to in a run, in order. -/
def sentTo (es : List Event) : List String := sentFrom none false es

/-- The pointer-move events of a run, as coordinates, in order. -/
def moves (es : List Event) : List (Int × Int) :=
  es.filterMap (fun e => match e with
    | .move x y => some (x, y)
    | _ => none)

/-- The number of character-input events of a run. -/
def inputCount (es : List Event) : Nat :=
  es.countP (fun e => match e with
    | .input _ => true
    | _ => false)

/-- The number of backspace events of a run; `humanType` sends one after each typo. -/
def backspaceCount (es : List Event) : Nat :=
  es.countP (fun e => match e with
    | .press _ => true
    | _ => false)

/-! ## Reasoning about runs -/

/-- The piece `m` runs to completion from every state of the random source, and the events
it issues and the value it returns satisfy `Q`. -/
def Completes {α : Type} (m : Run α) (Q : List Event → α → Prop) : Prop :=
  ∀ r, ∃ a, (m r).value = some a ∧ Q (m r).events a

/-- Whenever the piece `m` returns a value, the value satisfies `Q`. -/
def Returns {α : Type} (m : Run α) (Q : α → Prop) : Prop :=
  ∀ r a, (m r).value = some a → Q a

/-- The hrefs of the elements whose `Property("href")` call succeeded, in page order. -/
def hrefsOf (elements : List (Except String String)) : List String :=
  elements.filterMap (fun el => match el with
    | .ok url => some url
    | .error _ => none)

/-- The hrefs `SearchPeople` reads from the results page: those of the elements the selector
`a.app-aware-link` finds, none when the query fails. -/
def Bot.Page.hrefs (page : Bot.Page) : List String :=
  match page.elements "a.app-aware-link" with
  | .ok elements => hrefsOf elements
  | .error _ => []

/-- Two random sources deliver the same values from where they stand. -/
def Rand.Agree (r1 r2 : Rand) : Prop :=
  ∀ i, r1.stream (r1.pos + i) = r2.stream (r2.pos + i)

/-- The piece `m` is a function of the values the random source delivers: from two sources
that deliver the same values it issues the same events and returns the same value, and
leaves sources that again deliver the same values. -/
def Stable {α : Type} (m : Run α) : Prop :=
  ∀ r1 r2, r1.Agree r2 →
    (m r1).events = (m r2).events ∧ (m r1).value = (m r2).value ∧ (m r1).rand.Agree (m r2).rand

/-- The values of Go's 64-bit `int`. -/
def isInt64 (x : Int) : Prop := -9223372036854775808 ≤ x ∧ x ≤ 9223372036854775807

/-! ## Scroll events, the wake-up instant and the input field -/

/-- The method `Time.Minute`: the minute within the hour, in the location of `t`. -/
def Time.Minute (t : Time) : Int := t.localSeconds % 3600 / 60

/-- The method `Time.Second`: the second within the minute, in the location of `t`. -/
def Time.Second (t : Time) : Int := t.localSeconds % 60

/-- The method `Time.Nanosecond`: the nanoseconds within the second. -/
def Time.Nanosecond (t : Time) : Int := t.unixNano % 1000000000

/-- The instant `time.Now().Add(time.Hour).Truncate(time.Hour)` one iteration of
`Config.WaitForBusinessHours` sleeps until. -/
def Config.nextHour (now : Time) : Time := (now.Add Hour).Truncate Hour

/-- The loop `for !c.IsBusinessHours()` of `Config.WaitForBusinessHours`, run for at most
`fuel` iterations from the clock reading `now`: the clock reading at which it ends and the
sleeps it made, or `none` when `fuel` iterations did not end it. -/
def Config.waitLoop (c : Config) : Nat → Time → Option (Time × List Event)
  | 0, now => if c.IsBusinessHours now then some (now, []) else none
  | fuel + 1, now =>
    if c.IsBusinessHours now then some (now, [])
    else
      let sleepTime := (Config.nextHour now).Sub now
      match Config.waitLoop c fuel (now.afterSleep sleepTime) with
      | none => none
      | some res => some (res.1, Event.sleep sleepTime :: res.2)

/-- WaitForBusinessHours blocks until business hours if configured. -/
def Config.WaitForBusinessHours (c : Config) (fuel : Nat) (now : Time) :
    Option (Time × List Event) :=
  if !c.Stealth.BusinessHoursOnly then some (now, [])
  else c.waitLoop fuel now

/-- The content of an input field after one event: a character input appends its text, a
press of the backspace key removes the last character, any other event leaves it. -/
def applyEvent (field : List Char) : Event → List Char
  | .input text => field ++ text.toList
  | .press key => if key = '\x08' then field.dropLast else field
  | _ => field

/-- The content of an input field after the events `es`, in order, from the content `field`. -/
def replay (es : List Event) (field : List Char) : List Char :=
  es.foldl applyEvent field

/-- The content of the field satisfies `P` before the first event and after every event of
`es`, replayed from the content `field`. -/
def allStates (P : List Char → Prop) : List Char → List Event → Prop
  | field, [] => P field
  | field, e :: es => P field ∧ allStates P (applyEvent field e) es

/-- The content `field` is a prefix of the text `t` followed by at most one extra character. -/
def PrefixPlusOne (t : List Char) (field : List Char) : Prop :=
  ∃ done extra : List Char, done <+: t ∧ extra.length ≤ 1 ∧ field = done ++ extra

/-- For every state of the random source, the events the piece `m` issues and its value
(`none` when it panicked) satisfy `Q`. -/
def Always {α : Type} (m : Run α) (Q : List Event → Option α → Prop) : Prop :=
  ∀ r, Q (m r).events (m r).value

/-! # Theorems -/

/-- C1: `Config.Validate` returns no error exactly when every bound of the configuration
contract holds, and returns an error for every other configuration. -/
theorem validate_ok_iff_in_range (c : Config) :
    (c.Validate = none ↔ c.InRange) ∧ (¬ c.InRange ↔ ∃ msg, c.Validate = some msg) := by
  have key : c.Validate = none ↔ c.InRange := by
    unfold Config.Validate Config.InRange
    constructor
    · intro h
      split_ifs at h
      omega
    · intro h
      split_ifs <;> first | rfl | omega
  refine ⟨key, ?_⟩
  rw [← key]
  cases h : c.Validate <;> simp


/-! ### The ledger -/

namespace Storage

theorem length_le_foldr_max (ids : List String) (s : String) (h : s ∈ ids) :
    s.length ≤ ids.foldr (fun s n => max s.length n) 0 := by
  induction ids with
  | nil => cases h
  | cons a as ih =>
    simp only [List.foldr_cons]
    rcases List.mem_cons.mp h with rfl | h
    · exact le_max_left _ _
    · exact le_trans (ih h) (le_max_right _ _)

theorem longerId_fresh (ids : List String) : longerId ids ∉ ids := by
  intro h
  have h1 := length_le_foldr_max ids _ h
  have h2 : (longerId ids).length = ids.foldr (fun s n => max s.length n) 0 + 1 := by
    unfold longerId
    show (List.replicate _ _).length = _
    exact List.length_replicate _ _
  omega

theorem recordsFor_eq_count (t : List Row) (url : String) :
    recordsFor t url = (t.map Row.profile_url).count url := by
  induction t with
  | nil => rfl
  | cons r rs ih =>
    unfold recordsFor at ih ⊢
    by_cases h : r.profile_url = url
    · simp [List.filter_cons, h, ih]
    · simp [List.filter_cons, h, ih, List.count_cons]

theorem insertRow_nodup (t : List Row) (r : Row) (h : (t.map Row.profile_url).Nodup) :
    ((insertRow t r).1.map Row.profile_url).Nodup := by
  unfold insertRow
  split_ifs with h1 h2
  · exact h
  · exact h
  · simp only [List.map_append, List.map_cons, List.map_nil]
    rw [List.nodup_append]
    refine ⟨h, List.nodup_singleton _, ?_⟩
    intro a ha hb
    rw [List.mem_singleton] at hb
    subst hb
    exact h2 ha

theorem recordOutreach_fst (newId : List String → String) (now : String) (t : List Row)
    (rec : OutreachRecord) :
    (recordOutreach newId now t rec).1 =
      (insertRow t { id := newId (t.map Row.id), profile_url := rec.profileUrl,
                     profile_name := rec.profileName, sent_at := rec.sentAt, accepted := false,
                     note := rec.note, created_at := now }).1 := by
  unfold recordOutreach
  simp only
  split <;> simp_all

theorem recordAll_nodup (newId : List String → String) (now : String)
    (recs : List OutreachRecord) (t : List Row) (h : (t.map Row.profile_url).Nodup) :
    ((recordAll newId now t recs).map Row.profile_url).Nodup := by
  induction recs generalizing t with
  | nil => exact h
  | cons r rs ih =>
    unfold recordAll at ih ⊢
    rw [List.foldl_cons]
    apply ih
    rw [recordOutreach_fst]
    exact insertRow_nodup _ _ h

end Storage

/-- C2: for every ledger state and every record whose `profileUrl` is not yet present,
`recordOutreach` succeeds and stores the record; a further `recordOutreach` for the same
`profileUrl` fails with `DuplicateKey` and leaves the ledger unchanged (as does every insert
for a URL that is present); and after any sequence of inserts into the ledger `createTables`
makes, at most one record exists per `profileUrl`. The identifier generator is any that
returns an identifier not in use. -/
theorem record_outreach_at_most_once (newId : List String → String)
    (hfresh : ∀ ids, newId ids ∉ ids) (now : String) :
    (∀ (t : List Storage.Row) (rec : Storage.OutreachRecord),
        rec.profileUrl ∉ t.map Storage.Row.profile_url →
        ∃ row, row.profile_url = rec.profileUrl ∧ row.profile_name = rec.profileName ∧
          row.sent_at = rec.sentAt ∧ row.note = rec.note ∧
          Storage.recordOutreach newId now t rec = (t ++ [row], none) ∧
          ∀ (later : String) (again : Storage.OutreachRecord),
            again.profileUrl = rec.profileUrl →
            Storage.recordOutreach newId later (t ++ [row]) again
              = (t ++ [row], some .DuplicateKey)) ∧
    (∀ (t : List Storage.Row) (rec : Storage.OutreachRecord),
        rec.profileUrl ∈ t.map Storage.Row.profile_url →
        Storage.recordOutreach newId now t rec = (t, some .DuplicateKey)) ∧
    (∀ (recs : List Storage.OutreachRecord) (url : String),
        (Storage.createTables ⟨none⟩).connection_requests = some [] ∧
        Storage.recordsFor (Storage.recordAll newId now [] recs) url ≤ 1) := by
  have dup : ∀ (now : String) (t : List Storage.Row) (rec : Storage.OutreachRecord),
      rec.profileUrl ∈ t.map Storage.Row.profile_url →
      Storage.recordOutreach newId now t rec = (t, some .DuplicateKey) := by
    intro now t rec h
    unfold Storage.recordOutreach Storage.insertRow
    simp only
    rw [if_neg (hfresh (t.map Storage.Row.id)), if_pos h]
  refine ⟨?_, dup now, ?_⟩
  · intro t rec h
    refine ⟨{ id := newId (t.map Storage.Row.id), profile_url := rec.profileUrl,
              profile_name := rec.profileName, sent_at := rec.sentAt, accepted := false,
              note := rec.note, created_at := now }, rfl, rfl, rfl, rfl, ?_, ?_⟩
    · unfold Storage.recordOutreach Storage.insertRow
      simp only
      rw [if_neg (hfresh (t.map Storage.Row.id)), if_neg h]
    · intro later again hagain
      apply dup
      simp [hagain]
  · intro recs url
    refine ⟨rfl, ?_⟩
    rw [Storage.recordsFor_eq_count]
    exact List.nodup_iff_count_le_one.mp
      (Storage.recordAll_nodup newId now recs [] List.nodup_nil) url

/-- The statement of C2 at the generator `longerId`, with the ledger evaluated on profile
URLs `a` and `b`. -/
theorem record_outreach_at_most_once_witness :
    (∀ ids, Storage.longerId ids ∉ ids) ∧
    Storage.recordsFor
      (Storage.recordAll Storage.longerId "t0" []
        [⟨"a", "A", "t0", none⟩, ⟨"b", "B", "t0", none⟩, ⟨"a", "A", "t1", none⟩]) "a" ≤ 1 :=
  ⟨Storage.longerId_fresh,
   ((record_outreach_at_most_once Storage.longerId Storage.longerId_fresh "t0").2.2
      [⟨"a", "A", "t0", none⟩, ⟨"b", "B", "t0", none⟩, ⟨"a", "A", "t1", none⟩] "a").2⟩

/-! ### The schedule gate and the quota check of `SearchPeople` -/

namespace Bot

theorem isBusinessHours_monday_nine (c : Config) (t : Time)
    (hh : t.Hour = 9) (hw : t.Weekday = Weekday.Monday) : isBusinessHours c t = true := by
  unfold isBusinessHours isBusinessHoursAt
  rw [hh, hw]
  cases c.Stealth.BusinessHoursOnly <;> simp

theorem exists_business_hour (c : Config) (t : Time) :
    ∃ k : Nat, k < 168 ∧ isBusinessHours c (t.Add (k * Hour)) = true := by
  obtain ⟨k, hk, hmod⟩ : ∃ k : Nat, k < 168 ∧
      ((t.unixNano / 1000000000 + t.offset) / 3600 + (k : Int)) % 168 = 105 :=
    ⟨((105 - (t.unixNano / 1000000000 + t.offset) / 3600) % 168).toNat, by omega, by omega⟩
  refine ⟨k, hk, ?_⟩
  apply isBusinessHours_monday_nine
  · unfold Time.Hour Time.localSeconds Time.Add Hour Second
    simp only
    omega
  · unfold Time.Weekday Time.localSeconds Time.Add Hour Second
    simp only
    have h1 : (((t.unixNano + (k : Int) * 3600000000000) / 1000000000 + t.offset) / 86400 + 4) % 7
        = 1 := by
      omega
    rw [h1]
    rfl

theorem nextHour_eq (now : Time) :
    nextHour now = { now with unixNano :=
      now.unixNano - (now.unixNano + 62135596800000000000) % 3600000000000 + 3600000000000 } := by
  unfold nextHour Time.Add Time.Truncate Hour unixToInternal Second
  rw [if_neg (by decide)]
  simp only
  congr 1

theorem afterSleep_nextHour (now : Time) :
    now.afterSleep ((nextHour now).Sub now) = nextHour now ∧
    ((nextHour now).unixNano + unixToInternal * Second) % Hour = 0 := by
  rw [nextHour_eq]
  unfold Time.afterSleep Time.Sub Time.Add Hour unixToInternal Second
  simp only
  rw [if_neg (by omega)]
  constructor
  · congr 1
    omega
  · omega

theorem nextHour_of_aligned (now : Time)
    (h : (now.unixNano + unixToInternal * Second) % Hour = 0) : nextHour now = now.Add Hour := by
  rw [nextHour_eq]
  unfold Time.Add Hour unixToInternal Second at *
  congr 1
  omega

theorem add_aligned (now : Time) (h : (now.unixNano + unixToInternal * Second) % Hour = 0) :
    ((now.Add Hour).unixNano + unixToInternal * Second) % Hour = 0 := by
  unfold Time.Add Hour unixToInternal Second at *
  simp only
  omega

theorem waitLoop_aligned (c : Config) (k : Nat) :
    ∀ (fuel : Nat) (now : Time), k ≤ fuel →
      (now.unixNano + unixToInternal * Second) % Hour = 0 →
      isBusinessHours c (now.Add (k * Hour)) = true →
      ∃ res, waitLoop c fuel now = some res ∧ ∀ e ∈ res.2, e.isBrowser = false := by
  induction k with
  | zero =>
    intro fuel now _ _ hb
    have hnow : now.Add ((0 : Nat) * Hour) = now := by
      unfold Time.Add; simp
    rw [hnow] at hb
    cases fuel with
    | zero => exact ⟨(now, []), by simp [waitLoop, hb], by simp⟩
    | succ f => exact ⟨(now, []), by simp [waitLoop, hb], by simp⟩
  | succ k ih =>
    intro fuel now hk hal hb
    cases fuel with
    | zero => omega
    | succ f =>
      by_cases hnow : isBusinessHours c now = true
      · exact ⟨(now, []), by simp [waitLoop, hnow], by simp⟩
      · have hstep := afterSleep_nextHour now
        have hb2 : isBusinessHours c ((now.Add Hour).Add (k * Hour)) = true := by
          have : (now.Add Hour).Add (k * Hour) = now.Add ((k + 1 : Nat) * Hour) := by
            unfold Time.Add
            simp only
            congr 1
            push_cast
            ring
          rw [this]; exact hb
        obtain ⟨res, hres, hev⟩ := ih f (now.Add Hour) (by omega) (add_aligned now hal) hb2
        refine ⟨(res.1, Event.sleep ((nextHour now).Sub now) :: res.2), ?_, ?_⟩
        · rw [waitLoop, if_neg hnow]
          simp only
          rw [hstep.1, nextHour_of_aligned now hal, hres]
        · intro e he
          rcases List.mem_cons.mp he with rfl | he
          · rfl
          · exact hev e he

theorem waitLoop_terminates (c : Config) (now : Time) (fuel : Nat) (hf : 168 ≤ fuel) :
    ∃ res, waitLoop c fuel now = some res ∧ ∀ e ∈ res.2, e.isBrowser = false := by
  cases fuel with
  | zero => omega
  | succ f =>
    by_cases hnow : isBusinessHours c now = true
    · exact ⟨(now, []), by simp [waitLoop, hnow], by simp⟩
    · have hstep := afterSleep_nextHour now
      obtain ⟨k, hk, hb⟩ := exists_business_hour c (nextHour now)
      obtain ⟨res, hres, hev⟩ := waitLoop_aligned c k f (nextHour now) (by omega) hstep.2 hb
      refine ⟨(res.1, Event.sleep ((nextHour now).Sub now) :: res.2), ?_, ?_⟩
      · rw [waitLoop, if_neg hnow]
        simp only
        rw [hstep.1, hres]
      · intro e he
        rcases List.mem_cons.mp he with rfl | he
        · rfl
        · exact hev e he

theorem waitForBusinessHours_terminates (c : Config) (now : Time) (fuel : Nat)
    (hf : 168 ≤ fuel) :
    ∃ res, waitForBusinessHours c fuel now = some res ∧ ∀ e ∈ res.2, e.isBrowser = false := by
  unfold waitForBusinessHours
  split_ifs
  · exact ⟨(now, []), rfl, by simp⟩
  · exact waitLoop_terminates c now fuel hf

theorem quotaCheck_exceeded (c : Config) (st : Store) (count : Int)
    (hcount : st.GetTodayConnectionCount = .ok count)
    (hquota : count ≥ c.Automation.DailyConnectionLimit) :
    ∃ msg, quotaCheck c (some st) = some msg := by
  unfold quotaCheck
  simp only [hcount]
  rw [if_pos hquota]
  exact ⟨_, rfl⟩

end Bot

/-- C3: when the ledger is present and its today-count query succeeds with a count at or
over `DailyConnectionLimit`, `SearchPeople` returns (given fuel for the wait for business
hours) an error and an empty profile list, having made no call on the browser at all (the
only events are the sleeps of the wait) and having drawn nothing from the random source. -/
theorem search_people_quota_exceeded (c : Config) (st : Bot.Store) (page : Bot.Page)
    (now : Time) (jobTitle location : String) (maxResults : Int) (r : Rand) (count : Int)
    (hcount : st.GetTodayConnectionCount = .ok count)
    (hquota : count ≥ c.Automation.DailyConnectionLimit)
    (fuel : Nat) (hfuel : 168 ≤ fuel) :
    ∃ o msg, Bot.SearchPeople c (some st) page fuel now jobTitle location maxResults r = some o ∧
      o.value = some ([], some msg) ∧
      (∀ e ∈ o.events, e.isBrowser = false) ∧
      o.events.filter Event.isBrowser = [] ∧
      o.rand.pos = r.pos := by
  obtain ⟨msg, hmsg⟩ := Bot.quotaCheck_exceeded c st count hcount hquota
  have hbody : Bot.searchBody c (some st) page jobTitle location maxResults r
      = ⟨[], r, some ([], some msg)⟩ := by
    unfold Bot.searchBody
    rw [hmsg]
    rfl
  have hgate : ∃ res, (if (c.Stealth.BusinessHoursOnly && !Bot.isBusinessHours c now) = true
      then Bot.waitForBusinessHours c fuel now else some (now, [])) = some res ∧
      ∀ e ∈ res.2, e.isBrowser = false := by
    split_ifs
    · exact Bot.waitForBusinessHours_terminates c now fuel hfuel
    · exact ⟨(now, []), rfl, by simp⟩
  obtain ⟨res, hres, hev⟩ := hgate
  have hall : ∀ e ∈ res.2 ++ ([] : List Event), e.isBrowser = false := by
    simpa using hev
  refine ⟨⟨res.2 ++ [], r, some ([], some msg)⟩, msg, ?_, rfl, hall, ?_, rfl⟩
  · unfold Bot.SearchPeople
    simp only [hres, hbody]
  · rw [List.filter_eq_nil_iff]
    intro e he
    simp [hall e he]

/-- The statement of C3 at a daily limit of 2 with two records dated today, on a Saturday. -/
theorem search_people_quota_exceeded_witness :
    ∃ o msg,
      Bot.SearchPeople
        { DefaultConfig with Automation := { DefaultConfig.Automation with DailyConnectionLimit := 2 } }
        (some ⟨.ok 2, fun _ => .ok false⟩)
        ⟨fun _ => none, fun _ => .ok [.ok "https://www.linkedin.com/in/a"]⟩
        168 ⟨1704535200000000000, 0⟩ "engineer" "india" 5 ⟨fun n => n, 0⟩ = some o ∧
      o.value = some ([], some msg) ∧
      (∀ e ∈ o.events, e.isBrowser = false) ∧
      o.events.filter Event.isBrowser = [] ∧
      o.rand.pos = 0 :=
  search_people_quota_exceeded _ ⟨.ok 2, fun _ => .ok false⟩ _ _ _ _ _ _ 2 rfl (by decide) 168
    (by decide)

/-! ### Rules for `Completes` -/

theorem completes_pure {α : Type} {Q : List Event → α → Prop} {a : α} (h : Q [] a) :
    Completes (pure a : Run α) Q := by
  intro r
  exact ⟨a, rfl, h⟩

theorem completes_bind {α β : Type} {m : Run α} {f : α → Run β}
    {P : List Event → α → Prop} {Q : List Event → β → Prop}
    (hm : Completes m P)
    (hf : ∀ a es, P es a → Completes (f a) (fun es2 b => Q (es ++ es2) b)) :
    Completes (m >>= f) Q := by
  intro r
  obtain ⟨a, hv, hp⟩ := hm r
  obtain ⟨b, hv2, hq⟩ := hf a _ hp (m r).rand
  refine ⟨b, ?_, ?_⟩
  · show (Run.bind m f r).value = some b
    unfold Run.bind
    rw [hv]
    exact hv2
  · show Q (Run.bind m f r).events b
    unfold Run.bind
    rw [hv]
    exact hq

theorem completes_mono {α : Type} {m : Run α} {P Q : List Event → α → Prop}
    (hm : Completes m P) (h : ∀ es a, P es a → Q es a) : Completes m Q := by
  intro r
  obtain ⟨a, hv, hp⟩ := hm r
  exact ⟨a, hv, h _ _ hp⟩

theorem completes_emit {Q : List Event → Unit → Prop} {e : Event} (h : Q [e] ()) :
    Completes (emit e) Q := by
  intro r
  exact ⟨(), rfl, h⟩

theorem completes_sleep {Q : List Event → Unit → Prop} {ns : Int} (h : Q [Event.sleep ns] ()) :
    Completes (sleep ns) Q :=
  completes_emit h

theorem completes_Intn {Q : List Event → Int → Prop} {n : Int} (hn : 0 < n)
    (h : ∀ v, 0 ≤ v → v < n → Q [] v) : Completes (Intn n) Q := by
  intro r
  refine ⟨((r.draw.1 % n.toNat : Nat) : Int), ?_, ?_⟩
  · unfold Intn Rand.Intn
    rw [if_neg (by omega)]
  · have hv : (Intn n r).events = [] := by
      unfold Intn Rand.Intn
      rw [if_neg (by omega)]
    rw [hv]
    apply h
    · omega
    · have : r.draw.1 % n.toNat < n.toNat := Nat.mod_lt _ (by omega)
      omega

theorem completes_Float64 {Q : List Event → Nat → Prop} (h : ∀ k, Q [] k) :
    Completes Float64 Q := by
  intro r
  exact ⟨_, rfl, h _⟩

theorem completes_bind_emit {β : Type} {f : Unit → Run β} {Q : List Event → β → Prop}
    {e : Event} (h : Completes (f ()) (fun es b => Q (e :: es) b)) :
    Completes (emit e >>= f) Q :=
  completes_bind (P := fun es _ => es = [e]) (completes_emit rfl)
    (fun _ es hes => by subst hes; exact h)

theorem completes_bind_sleep {β : Type} {f : Unit → Run β} {Q : List Event → β → Prop}
    {ns : Int} (h : Completes (f ()) (fun es b => Q (Event.sleep ns :: es) b)) :
    Completes (sleep ns >>= f) Q :=
  completes_bind_emit h

theorem completes_bind_Intn {β : Type} {f : Int → Run β} {Q : List Event → β → Prop}
    {n : Int} (hn : 0 < n) (h : ∀ v, 0 ≤ v → v < n → Completes (f v) Q) :
    Completes (Intn n >>= f) Q :=
  completes_bind (P := fun es v => es = [] ∧ 0 ≤ v ∧ v < n)
    (completes_Intn hn (fun v h0 h1 => ⟨rfl, h0, h1⟩))
    (fun v es hes => by
      obtain ⟨rfl, h0, h1⟩ := hes
      simpa using h v h0 h1)

theorem completes_bind_Float64 {β : Type} {f : Nat → Run β} {Q : List Event → β → Prop}
    (h : ∀ k, Completes (f k) Q) : Completes (Float64 >>= f) Q :=
  completes_bind (P := fun es _ => es = []) (completes_Float64 (fun _ => rfl))
    (fun k es hes => by
      subst hes
      simpa using h k)

theorem completes_forEach {α : Type} {body : α → Run Unit} {I : List Event → Prop}
    (h0 : I []) (hstep : ∀ a es, I es → Completes (body a) (fun es2 _ => I (es ++ es2)))
    (as : List α) : Completes (forEach body as) (fun es _ => I es) := by
  suffices h : ∀ es0, I es0 → Completes (forEach body as)
      (fun es _ => I (es0 ++ es)) by
    simpa using h [] h0
  induction as with
  | nil =>
    intro es0 h
    exact completes_pure (by simpa using h)
  | cons a as ih =>
    intro es0 h
    unfold forEach
    refine completes_bind (hstep a es0 h) ?_
    intro _ es hes
    have := ih (es0 ++ es) hes
    simpa [List.append_assoc] using this

theorem completes_forRange {body : Int → Run Unit} {I : List Event → Prop}
    (h0 : I []) (hstep : ∀ i es, I es → Completes (body i) (fun es2 _ => I (es ++ es2)))
    (n : Nat) (i : Int) : Completes (forRange body n i) (fun es _ => I es) := by
  suffices h : ∀ es0 i, I es0 → Completes (forRange body n i)
      (fun es _ => I (es0 ++ es)) by
    simpa using h [] i h0
  induction n with
  | zero =>
    intro es0 i h
    exact completes_pure (by simpa using h)
  | succ n ih =>
    intro es0 i h
    unfold forRange
    refine completes_bind (hstep i es0 h) ?_
    intro _ es hes
    have := ih (es0 ++ es) (i + 1) hes
    simpa [List.append_assoc] using this

/-! ### The send loop of `main.go` -/

theorem requestEvents_append (es1 es2 : List Event) :
    requestEvents (es1 ++ es2) = requestEvents es1 ++ requestEvents es2 := by
  unfold requestEvents
  exact List.filter_append _ _

/-- Which requests were sent depends on the steps of sending only. -/
theorem sentFrom_requestEvents (es : List Event) :
    ∀ (page : Option String) (connected : Bool),
      sentFrom page connected (requestEvents es) = sentFrom page connected es := by
  induction es with
  | nil =>
    intro page connected
    rfl
  | cons e es ih =>
    intro page connected
    cases e with
    | navigate url =>
      show sentFrom page connected (Event.navigate url :: requestEvents es) = _
      simp only [sentFrom, ih]
    | click selector =>
      by_cases h1 : selector = "button:has-text('Connect')"
      · subst h1
        show sentFrom page connected
          (Event.click "button:has-text('Connect')" :: requestEvents es) = _
        simp only [sentFrom, ih, if_true]
      · by_cases h2 : selector = "button:has-text('Send')"
        · subst h2
          show sentFrom page connected
            (Event.click "button:has-text('Send')" :: requestEvents es) = _
          simp only [sentFrom, ih]
        · have hdrop : requestEvents (Event.click selector :: es) = requestEvents es := by
            simp [requestEvents, isRequestEvent, h1, h2]
          rw [hdrop, ih]
          simp only [sentFrom, if_neg h1, if_neg h2]
    | elements selector =>
      by_cases h : isRequestEvent (Event.elements selector) = true
      · have hkeep : requestEvents (Event.elements selector :: es)
            = Event.elements selector :: requestEvents es := by
          simp [requestEvents, List.filter_cons, h]
        rw [hkeep]
        simp only [sentFrom, ih]
      · have hdrop : requestEvents (Event.elements selector :: es) = requestEvents es := by
          simp [requestEvents, List.filter_cons, h]
        rw [hdrop, ih]
        simp only [sentFrom]
    | waitLoad =>
      show sentFrom page connected (Event.waitLoad :: requestEvents es) = _
      simp only [sentFrom, ih]
    | property index name =>
      show sentFrom page connected (requestEvents es) = _
      simp only [sentFrom, ih]
    | input text =>
      show sentFrom page connected (requestEvents es) = _
      simp only [sentFrom, ih]
    | press key =>
      show sentFrom page connected (requestEvents es) = _
      simp only [sentFrom, ih]
    | scroll dx dy =>
      show sentFrom page connected (requestEvents es) = _
      simp only [sentFrom, ih]
    | move x y =>
      show sentFrom page connected (requestEvents es) = _
      simp only [sentFrom, ih]
    | shape =>
      show sentFrom page connected (requestEvents es) = _
      simp only [sentFrom, ih]
    | scrollIntoView =>
      show sentFrom page connected (requestEvents es) = _
      simp only [sentFrom, ih]
    | waitVisible =>
      show sentFrom page connected (requestEvents es) = _
      simp only [sentFrom, ih]
    | sleep ns =>
      show sentFrom page connected (requestEvents es) = _
      simp only [sentFrom, ih]

/-- Send sequences in a row send one request to each profile, in order. -/
theorem sentFrom_sendSequences (profiles : List String) :
    ∀ (page : Option String) (connected : Bool),
      sentFrom page connected (sendSequences profiles) = profiles := by
  induction profiles with
  | nil =>
    intro page connected
    rfl
  | cons p ps ih =>
    intro page connected
    simp [sendSequences, sendSequence, sentFrom, ih]

namespace Main

theorem randomDelay_sleeps (minMs maxMs : Int)
    (h : 0 < wrap64 (wrap64 (maxMs - minMs) + 1)) :
    Completes (randomDelay minMs maxMs) (fun es _ => requestEvents es = []) := by
  unfold randomDelay
  refine completes_bind_Intn h ?_
  intro v _ _
  exact completes_sleep rfl

theorem humanType_sleeps (text : String) :
    Completes (humanType text) (fun es _ => requestEvents es = []) := by
  unfold humanType
  refine completes_forEach (I := fun es => requestEvents es = []) rfl ?_ _
  intro char es hes
  refine completes_bind_emit ?_
  refine completes_bind_Intn (by decide) ?_
  intro v _ _
  refine completes_sleep ?_
  show requestEvents (es ++ _) = []
  rw [requestEvents_append, hes]
  rfl

theorem addNote_sleeps (d : Driver) (profileURL message : String) :
    Completes (addNote d profileURL message) (fun es _ => requestEvents es = []) := by
  unfold addNote
  split_ifs with h1 h2 h3
  · refine completes_bind_emit ?_
    refine completes_bind_emit ?_
    refine completes_bind (randomDelay_sleeps 1 2 (by decide)) ?_
    intro _ es1 h1
    refine completes_bind_emit ?_
    refine completes_bind (humanType_sleeps message) ?_
    intro _ es2 h2
    refine completes_mono (randomDelay_sleeps 1 2 (by decide)) ?_
    intro es3 _ h3
    show requestEvents ([Event.elements "button:has-text('Add a note')",
      Event.click "button:has-text('Add a note')"] ++
      (es1 ++ ([Event.elements "textarea[name='message']"] ++ (es2 ++ es3)))) = []
    simp only [requestEvents_append, h1, h2, h3]
    decide
  · refine completes_bind_emit ?_
    refine completes_bind_emit ?_
    refine completes_bind (randomDelay_sleeps 1 2 (by decide)) ?_
    intro _ es1 h1
    refine completes_bind_emit ?_
    refine completes_pure ?_
    show requestEvents ([Event.elements "button:has-text('Add a note')",
      Event.click "button:has-text('Add a note')"] ++
      (es1 ++ ([Event.elements "textarea[name='message']"] ++ []))) = []
    simp only [requestEvents_append, h1]
    decide
  · refine completes_bind_emit ?_
    exact completes_pure (by decide)
  · exact completes_pure rfl

theorem mustNavigate_visits (d : Driver) (url : String) (h : d.navigate url = true) :
    Completes (mustNavigate d url) (fun es _ => es = [Event.navigate url]) := by
  unfold mustNavigate
  refine completes_bind_emit ?_
  rw [if_pos h]
  exact completes_pure rfl

theorem mustElement_finds (d : Driver) (url selector : String) (h : d.has url selector = true) :
    Completes (mustElement d url selector) (fun es _ => es = [Event.elements selector]) := by
  unfold mustElement
  refine completes_bind_emit ?_
  rw [if_pos h]
  exact completes_pure rfl

theorem SendConnectionRequest_visits (d : Driver) (profileURL message : String)
    (hnav : d.navigate profileURL = true)
    (hconnect : d.has profileURL "button:has-text('Connect')" = true)
    (hsend : d.has profileURL "button:has-text('Send')" = true) :
    Completes (SendConnectionRequest d profileURL message)
      (fun es err => err = none ∧ requestEvents es = sendSequence profileURL) := by
  unfold SendConnectionRequest
  refine completes_bind (mustNavigate_visits d profileURL hnav) ?_
  intro _ es0 h0
  refine completes_bind_emit ?_
  refine completes_bind (randomDelay_sleeps 3 5 (by decide)) ?_
  intro _ es1 h1
  refine completes_bind (mustElement_finds d profileURL _ hconnect) ?_
  intro _ es2 h2
  refine completes_bind_emit ?_
  refine completes_bind (randomDelay_sleeps 1 2 (by decide)) ?_
  intro _ es3 h3
  refine completes_bind (addNote_sleeps d profileURL message) ?_
  intro _ es4 h4
  refine completes_bind (mustElement_finds d profileURL _ hsend) ?_
  intro _ es5 h5
  refine completes_bind_emit ?_
  refine completes_bind (randomDelay_sleeps 2 3 (by decide)) ?_
  intro _ es6 h6
  refine completes_pure ⟨rfl, ?_⟩
  subst h0 h2 h5
  show requestEvents ([Event.navigate profileURL] ++ ([Event.waitLoad] ++ (es1 ++
    ([Event.elements "button:has-text('Connect')"] ++
      ([Event.click "button:has-text('Connect')"] ++ (es3 ++ (es4 ++
        ([Event.elements "button:has-text('Send')"] ++
          ([Event.click "button:has-text('Send')"] ++ (es6 ++ [])))))))))) = _
  simp only [requestEvents_append, h1, h3, h4, h6]
  rfl

theorem cooldown_some (g : Rand) :
    cooldown g = some (30 + ((g.draw.1 % 61 : Nat) : Int), g.draw.2) := by
  unfold cooldown Rand.Intn
  rw [if_neg (by decide)]
  rfl

theorem sendLoop_visits (d : Driver) (message : String) (profiles : List String) :
    ∀ (g : Rand),
      (∀ p ∈ profiles, d.navigate p = true ∧ d.has p "button:has-text('Connect')" = true ∧
        d.has p "button:has-text('Send')" = true) →
      Completes (sendLoop d message profiles g)
        (fun es _ => requestEvents es = sendSequences profiles) := by
  induction profiles with
  | nil =>
    intro g _
    exact completes_pure rfl
  | cons p ps ih =>
    intro g h
    obtain ⟨hnav, hconnect, hsend⟩ := h p (List.mem_cons_self _ _)
    unfold sendLoop
    refine completes_bind (SendConnectionRequest_visits d p message hnav hconnect hsend) ?_
    intro err es0 h0
    obtain ⟨rfl, h0⟩ := h0
    simp only [cooldown_some]
    refine completes_bind_sleep ?_
    refine completes_mono (ih g.draw.2 (fun q hq => h q (List.mem_cons_of_mem _ hq))) ?_
    intro es1 _ h1
    show requestEvents (es0 ++ ([Event.sleep _] ++ es1)) = _
    simp only [requestEvents_append, h0, h1]
    rfl

end Main

/-- C4, as the code has it: the send loop of `main` (main.go) has no ledger and no quota
check. When no `Must` call of the driver fails, it runs to completion and sends a connection
request to every candidate of the list, in order, whatever the daily limit of the
configuration: its steps of sending are, candidate after candidate, the navigation to the
profile, the lookup and the click of Connect and the lookup and the click of Send, so the
profiles a request was sent to are exactly the candidates. -/
theorem send_loop_contacts_every_candidate (d : Main.Driver) (message : String)
    (profiles : List String) (g r : Rand)
    (hok : ∀ p ∈ profiles, d.navigate p = true ∧ d.has p "button:has-text('Connect')" = true ∧
      d.has p "button:has-text('Send')" = true) :
    (Main.sendLoop d message profiles g r).value = some () ∧
    requestEvents (Main.sendLoop d message profiles g r).events = sendSequences profiles ∧
    sentTo (Main.sendLoop d message profiles g r).events = profiles ∧
    (sentTo (Main.sendLoop d message profiles g r).events).length = profiles.length := by
  obtain ⟨_, hv, hc⟩ := Main.sendLoop_visits d message profiles g hok r
  have hsent : sentTo (Main.sendLoop d message profiles g r).events = profiles := by
    unfold sentTo
    rw [← sentFrom_requestEvents, hc, sentFrom_sendSequences]
  exact ⟨hv, hc, hsent, by rw [hsent]⟩

/-- The statement of C4 as the code has it, at candidates `A` and `B`. -/
theorem send_loop_contacts_every_candidate_witness :
    (Main.sendLoop ⟨fun _ => true, fun _ _ => true, fun _ _ => []⟩ "Hi" ["A", "B"]
        ⟨fun n => n, 0⟩ ⟨fun n => n, 0⟩).value = some () ∧
    requestEvents (Main.sendLoop ⟨fun _ => true, fun _ _ => true, fun _ _ => []⟩ "Hi"
        ["A", "B"] ⟨fun n => n, 0⟩ ⟨fun n => n, 0⟩).events
      = [.navigate "A", .waitLoad,
         .elements "button:has-text('Connect')", .click "button:has-text('Connect')",
         .elements "button:has-text('Send')", .click "button:has-text('Send')",
         .navigate "B", .waitLoad,
         .elements "button:has-text('Connect')", .click "button:has-text('Connect')",
         .elements "button:has-text('Send')", .click "button:has-text('Send')"] ∧
    sentTo (Main.sendLoop ⟨fun _ => true, fun _ _ => true, fun _ _ => []⟩ "Hi" ["A", "B"]
        ⟨fun n => n, 0⟩ ⟨fun n => n, 0⟩).events = ["A", "B"] :=
  ⟨(send_loop_contacts_every_candidate ⟨fun _ => true, fun _ _ => true, fun _ _ => []⟩ "Hi"
      ["A", "B"] ⟨fun n => n, 0⟩ ⟨fun n => n, 0⟩ (fun _ _ => ⟨rfl, rfl, rfl⟩)).1,
   (send_loop_contacts_every_candidate ⟨fun _ => true, fun _ _ => true, fun _ _ => []⟩ "Hi"
      ["A", "B"] ⟨fun n => n, 0⟩ ⟨fun n => n, 0⟩ (fun _ _ => ⟨rfl, rfl, rfl⟩)).2.1,
   (send_loop_contacts_every_candidate ⟨fun _ => true, fun _ _ => true, fun _ _ => []⟩ "Hi"
      ["A", "B"] ⟨fun n => n, 0⟩ ⟨fun n => n, 0⟩ (fun _ _ => ⟨rfl, rfl, rfl⟩)).2.2.1⟩

/-- C4 fails on the code: with `dailyConnectionLimit = 1` and candidates `[A, B]` the send
loop of `main` runs to completion having navigated to `A`, clicked Connect and Send there,
then navigated to `B` and clicked Connect and Send there: a request is sent to `B`, and the
number of requests sent exceeds the limit. -/
theorem send_loop_exceeds_daily_limit :
    (Main.sendLoop ⟨fun _ => true, fun _ _ => true, fun _ _ => []⟩
        "Hi, I came across your profile and would like to connect." ["A", "B"]
        ⟨fun _ => 0, 0⟩ ⟨fun _ => 0, 0⟩).value = some () ∧
    requestEvents (Main.sendLoop ⟨fun _ => true, fun _ _ => true, fun _ _ => []⟩
        "Hi, I came across your profile and would like to connect." ["A", "B"]
        ⟨fun _ => 0, 0⟩ ⟨fun _ => 0, 0⟩).events
      = [.navigate "A", .waitLoad,
         .elements "button:has-text('Connect')", .click "button:has-text('Connect')",
         .elements "button:has-text('Send')", .click "button:has-text('Send')",
         .navigate "B", .waitLoad,
         .elements "button:has-text('Connect')", .click "button:has-text('Connect')",
         .elements "button:has-text('Send')", .click "button:has-text('Send')"] ∧
    sentTo (Main.sendLoop ⟨fun _ => true, fun _ _ => true, fun _ _ => []⟩
        "Hi, I came across your profile and would like to connect." ["A", "B"]
        ⟨fun _ => 0, 0⟩ ⟨fun _ => 0, 0⟩).events = ["A", "B"] ∧
    "B" ∈ sentTo (Main.sendLoop ⟨fun _ => true, fun _ _ => true, fun _ _ => []⟩
        "Hi, I came across your profile and would like to connect." ["A", "B"]
        ⟨fun _ => 0, 0⟩ ⟨fun _ => 0, 0⟩).events ∧
    ¬ (((sentTo (Main.sendLoop ⟨fun _ => true, fun _ _ => true, fun _ _ => []⟩
        "Hi, I came across your profile and would like to connect." ["A", "B"]
        ⟨fun _ => 0, 0⟩ ⟨fun _ => 0, 0⟩).events).length : Int) ≤
      ({ DefaultConfig.Automation with DailyConnectionLimit := 1 }).DailyConnectionLimit) := by
  decide

/-! ### Random delays -/

namespace Bot

/-- Where no 64-bit overflow occurs (as for every accepted configuration with
`MaxDelaySeconds` below the largest `int`), the delay in seconds is drawn without a panic and
lies in `[MinDelaySeconds, MaxDelaySeconds]`. -/
theorem randomDelaySeconds_in_range (c : Config)
    (hmin : 0 ≤ c.Timing.MinDelaySeconds)
    (hle : c.Timing.MinDelaySeconds ≤ c.Timing.MaxDelaySeconds)
    (hmax : c.Timing.MaxDelaySeconds < 9223372036854775807) :
    Completes (randomDelaySeconds c)
      (fun es d => es = [] ∧ c.Timing.MinDelaySeconds ≤ d ∧ d ≤ c.Timing.MaxDelaySeconds) := by
  unfold randomDelaySeconds
  have hbound : wrap64 (wrap64 (c.Timing.MaxDelaySeconds - c.Timing.MinDelaySeconds) + 1)
      = c.Timing.MaxDelaySeconds - c.Timing.MinDelaySeconds + 1 := by
    unfold wrap64
    omega
  simp only [hbound]
  refine completes_bind_Intn (by omega) ?_
  intro v h0 h1
  refine completes_pure ⟨rfl, ?_⟩
  unfold wrap64
  omega

/-- Both ends of the range are drawn for some random source. -/
theorem randomDelaySeconds_endpoints (c : Config)
    (hmin : 0 ≤ c.Timing.MinDelaySeconds)
    (hle : c.Timing.MinDelaySeconds ≤ c.Timing.MaxDelaySeconds)
    (hmax : c.Timing.MaxDelaySeconds < 9223372036854775807) :
    (randomDelaySeconds c ⟨fun _ => 0, 0⟩).value = some c.Timing.MinDelaySeconds ∧
    (randomDelaySeconds c
        ⟨fun _ => (c.Timing.MaxDelaySeconds - c.Timing.MinDelaySeconds).toNat, 0⟩).value
      = some c.Timing.MaxDelaySeconds := by
  have hbound : wrap64 (wrap64 (c.Timing.MaxDelaySeconds - c.Timing.MinDelaySeconds) + 1)
      = c.Timing.MaxDelaySeconds - c.Timing.MinDelaySeconds + 1 := by
    unfold wrap64
    omega
  have hval : ∀ r : Rand, (randomDelaySeconds c r).value
      = some (wrap64 (((r.stream r.pos %
          (c.Timing.MaxDelaySeconds - c.Timing.MinDelaySeconds + 1).toNat : Nat) : Int)
          + c.Timing.MinDelaySeconds)) := by
    intro r
    unfold randomDelaySeconds
    simp only [hbound]
    show (Run.bind _ _ r).value = _
    unfold Run.bind Intn Rand.Intn Rand.draw
    rw [if_neg (by omega)]
    rfl
  constructor
  · rw [hval]
    simp only [Nat.zero_mod]
    unfold wrap64
    congr 1
    omega
  · rw [hval]
    simp only
    have : (c.Timing.MaxDelaySeconds - c.Timing.MinDelaySeconds).toNat %
        (c.Timing.MaxDelaySeconds - c.Timing.MinDelaySeconds + 1).toNat
        = (c.Timing.MaxDelaySeconds - c.Timing.MinDelaySeconds).toNat :=
      Nat.mod_eq_of_lt (by omega)
    rw [this]
    unfold wrap64
    congr 1
    omega

end Bot

/-! ### The candidate list of `SearchPeople` -/

theorem returns_pure {α : Type} {Q : α → Prop} {a : α} (h : Q a) :
    Returns (pure a : Run α) Q := by
  intro r b hb
  have : a = b := by
    have h1 : ((pure a : Run α) r).value = some a := rfl
    rw [h1] at hb
    exact Option.some.inj hb
  exact this ▸ h

theorem returns_bind {α β : Type} {m : Run α} {f : α → Run β} {Q : β → Prop}
    (hf : ∀ a, Returns (f a) Q) : Returns (m >>= f) Q := by
  intro r b hb
  have hb2 : (Run.bind m f r).value = some b := hb
  unfold Run.bind at hb2
  cases hv : (m r).value with
  | none => rw [hv] at hb2; cases hb2
  | some a =>
    rw [hv] at hb2
    exact hf a _ _ hb2

namespace Bot

/-- What the loop adds to the profiles collected so far. -/
theorem collectProfiles_spec (storage : Option Store) (maxResults : Int)
    (elements : List (Except String String)) :
    ∀ (index : Nat) (profiles seen : List String),
      ∃ extra, (collectProfiles storage maxResults elements index profiles seen).1
          = profiles ++ extra ∧
        extra.Sublist (hrefsOf elements) ∧
        extra.Nodup ∧
        (∀ u ∈ extra, u ∉ seen ∧ Contains u "/in/" = true ∧ Contains u "/search/" = false ∧
          ∀ st, storage = some st → st.HasSentConnectionRequest u = .ok false) ∧
        (extra ≠ [] → ((profiles ++ extra).length : Int) ≤ maxResults) := by
  induction elements with
  | nil =>
    intro index profiles seen
    exact ⟨[], by simp [collectProfiles], List.Sublist.refl _, List.nodup_nil, by simp, by simp⟩
  | cons element rest ih =>
    intro index profiles seen
    have skip : ∃ extra, (collectProfiles storage maxResults rest (index + 1) profiles seen).1
          = profiles ++ extra ∧
        extra.Sublist (hrefsOf (element :: rest)) ∧
        extra.Nodup ∧
        (∀ u ∈ extra, u ∉ seen ∧ Contains u "/in/" = true ∧ Contains u "/search/" = false ∧
          ∀ st, storage = some st → st.HasSentConnectionRequest u = .ok false) ∧
        (extra ≠ [] → ((profiles ++ extra).length : Int) ≤ maxResults) := by
      obtain ⟨extra, h1, h2, h3, h4, h5⟩ := ih (index + 1) profiles seen
      refine ⟨extra, h1, ?_, h3, h4, h5⟩
      unfold hrefsOf
      cases element with
      | error e => simpa [List.filterMap_cons] using h2
      | ok url =>
        simp only [List.filterMap_cons]
        exact List.Sublist.cons _ h2
    have take : ∀ url, element = .ok url → (profiles.length : Int) < maxResults → url ∉ seen →
        Contains url "/in/" = true → Contains url "/search/" = false →
        (∀ st, storage = some st → st.HasSentConnectionRequest url = .ok false) →
        ∃ extra, (collectProfiles storage maxResults rest (index + 1) (profiles ++ [url])
            (url :: seen)).1 = profiles ++ extra ∧
        extra.Sublist (hrefsOf (element :: rest)) ∧
        extra.Nodup ∧
        (∀ u ∈ extra, u ∉ seen ∧ Contains u "/in/" = true ∧ Contains u "/search/" = false ∧
          ∀ st, storage = some st → st.HasSentConnectionRequest u = .ok false) ∧
        (extra ≠ [] → ((profiles ++ extra).length : Int) ≤ maxResults) := by
      intro url hel hlen hseen hin hsearch hst
      obtain ⟨extra, h1, h2, h3, h4, h5⟩ := ih (index + 1) (profiles ++ [url]) (url :: seen)
      refine ⟨url :: extra, by simpa using h1, ?_, ?_, ?_, ?_⟩
      · subst hel
        unfold hrefsOf
        simp only [List.filterMap_cons]
        exact List.Sublist.cons₂ _ h2
      · rw [List.nodup_cons]
        exact ⟨fun hmem => (h4 url hmem).1 (List.mem_cons_self _ _), h3⟩
      · intro u hu
        rcases List.mem_cons.mp hu with rfl | hu
        · exact ⟨hseen, hin, hsearch, hst⟩
        · obtain ⟨a, b, c, d⟩ := h4 u hu
          exact ⟨fun hmem => a (List.mem_cons_of_mem _ hmem), b, c, d⟩
      · intro _
        by_cases hex : extra = []
        · subst hex
          simp only [List.length_append, List.length_cons, List.length_nil]
          push_cast
          omega
        · have := h5 hex
          simpa using this
    unfold collectProfiles
    split_ifs with hfull
    · exact ⟨[], by simp, List.nil_sublist _, List.nodup_nil, by simp, by simp⟩
    · simp only
      cases hel : element with
      | error e => simpa [hel] using skip
      | ok url =>
        rw [hel] at skip take
        simp only
        split_ifs with hfilter hseen
        · simp only [Bool.and_eq_true, Bool.not_eq_true', decide_eq_true_eq,
            decide_eq_false_iff_not] at hfilter hseen
          cases hst : storage with
          | none =>
            rw [hst] at take
            simp only
            exact take url rfl (by omega) (by simpa using hseen) hfilter.1 hfilter.2
              (fun st h => by cases h)
          | some st =>
            rw [hst] at take skip
            simp only
            cases hq : st.HasSentConnectionRequest url with
            | error e => exact skip
            | ok sent =>
              cases sent with
              | true => exact skip
              | false =>
                simp only
                exact take url rfl (by omega) (by simpa using hseen) hfilter.1 hfilter.2
                  (fun st2 h => by cases h; exact hq)
        · exact skip
        · exact skip

theorem searchBody_returns (c : Config) (storage : Option Store) (page : Page)
    (jobTitle location : String) (maxResults : Int) :
    Returns (searchBody c storage page jobTitle location maxResults)
      (fun v => v.1 = [] ∨ ∃ elements, page.elements "a.app-aware-link" = .ok elements ∧
        v.1 = (collectProfiles storage maxResults elements 0 [] []).1) := by
  unfold searchBody
  split
  · exact returns_pure (Or.inl rfl)
  · simp only
    refine returns_bind (fun _ => ?_)
    split
    · exact returns_pure (Or.inl rfl)
    · refine returns_bind (fun _ => ?_)
      refine returns_bind (fun _ => ?_)
      refine returns_bind (fun _ => ?_)
      refine returns_bind (fun _ => ?_)
      refine returns_bind (fun _ => ?_)
      split
      · exact returns_pure (Or.inl rfl)
      · rename_i elements hel
        refine returns_bind (fun _ => ?_)
        exact returns_pure (Or.inr ⟨elements, hel, rfl⟩)

theorem SearchPeople_value (c : Config) (storage : Option Store) (page : Page) (fuel : Nat)
    (now : Time) (jobTitle location : String) (maxResults : Int) (r : Rand)
    (o : Outcome (List String × Option String))
    (h : SearchPeople c storage page fuel now jobTitle location maxResults r = some o) :
    o.value = (searchBody c storage page jobTitle location maxResults r).value := by
  unfold SearchPeople at h
  simp only at h
  split at h
  · cases h
  · simp only [Option.some.injEq] at h
    rw [← h]

theorem randomDelay_completes (c : Config)
    (hmin : 0 ≤ c.Timing.MinDelaySeconds)
    (hle : c.Timing.MinDelaySeconds ≤ c.Timing.MaxDelaySeconds)
    (hmax : c.Timing.MaxDelaySeconds < 9223372036854775807) :
    Completes (randomDelay c) (fun _ _ => True) := by
  unfold randomDelay
  refine completes_bind (randomDelaySeconds_in_range c hmin hle hmax) ?_
  intro d es _
  exact completes_sleep trivial

theorem humanScroll_completes (c : Config) : Completes (humanScroll c) (fun _ _ => True) := by
  unfold humanScroll
  split_ifs
  · exact completes_pure trivial
  · refine completes_bind_Intn (by decide) ?_
    intro a _ _
    refine completes_bind_Intn (by decide) ?_
    intro b _ _
    refine completes_bind (P := fun _ _ => True) ?_ ?_
    · refine completes_forRange (I := fun _ => True) trivial ?_ _ _
      intro i es _
      refine completes_bind_emit ?_
      refine completes_bind_Intn (by decide) ?_
      intro d _ _
      exact completes_sleep trivial
    · intro _ es _
      refine completes_bind_Float64 ?_
      intro f
      split_ifs
      · refine completes_bind_Intn (by decide) ?_
        intro d _ _
        refine completes_bind_sleep ?_
        refine completes_bind_Intn (by decide) ?_
        intro back _ _
        exact completes_emit trivial
      · exact completes_pure trivial

theorem randomMouseMovement_completes (c : Config)
    (hw : 0 < c.Browser.Viewport.Width) (hh : 0 < c.Browser.Viewport.Height) :
    Completes (randomMouseMovement c) (fun _ _ => True) := by
  unfold randomMouseMovement
  split_ifs
  · exact completes_pure trivial
  · refine completes_bind_Intn hw ?_
    intro x _ _
    refine completes_bind_Intn hh ?_
    intro y _ _
    refine completes_bind_emit ?_
    refine completes_bind_Intn (by decide) ?_
    intro d _ _
    exact completes_sleep trivial

/-- For a configuration `Validate` accepts whose `MaxDelaySeconds` is below the largest `int`,
the part of `SearchPeople` after the wait runs to completion: no call panics. -/
theorem searchBody_completes (c : Config) (storage : Option Store) (page : Page)
    (jobTitle location : String) (maxResults : Int)
    (hvalid : c.Validate = none) (hmax : c.Timing.MaxDelaySeconds < 9223372036854775807) :
    Completes (searchBody c storage page jobTitle location maxResults) (fun _ _ => True) := by
  obtain ⟨hmin, hle, hw, hh⟩ : 0 ≤ c.Timing.MinDelaySeconds ∧
      c.Timing.MinDelaySeconds ≤ c.Timing.MaxDelaySeconds ∧
      0 < c.Browser.Viewport.Width ∧ 0 < c.Browser.Viewport.Height := by
    unfold Config.Validate at hvalid
    split_ifs at hvalid
    omega
  have hdelay := randomDelay_completes c hmin hle hmax
  unfold searchBody
  split
  · exact completes_pure trivial
  · simp only
    refine completes_bind_emit ?_
    split
    · exact completes_pure trivial
    · refine completes_bind_emit ?_
      refine completes_bind_emit ?_
      refine completes_bind hdelay ?_
      intro _ _ _
      refine completes_bind (P := fun _ _ => True) ?_ ?_
      · refine completes_forRange (I := fun _ => True) trivial ?_ _ _
        intro i es _
        refine completes_bind (humanScroll_completes c) ?_
        intro _ _ _
        refine completes_bind hdelay ?_
        intro _ _ _
        refine completes_bind (P := fun _ _ => True) ?_ ?_
        · split_ifs
          · exact completes_bind_Float64 (fun _ => completes_pure trivial)
          · exact completes_pure trivial
        · intro wander _ _
          split_ifs
          · exact completes_mono (randomMouseMovement_completes c hw hh) (fun _ _ _ => trivial)
          · exact completes_pure trivial
      · intro _ _ _
        refine completes_bind_emit ?_
        split
        · exact completes_pure trivial
        · intro r
          exact ⟨_, rfl, trivial⟩

end Bot

/-- C5: the candidate list `SearchPeople` returns (a) has no URL twice, (b) has only URLs
that contain "/in/" and do not contain "/search/", (c) has, when the ledger is present, only
URLs for which `HasSentConnectionRequest` succeeded with false, (d) is a subsequence of the
hrefs found on the results page, in their order, and (e) has length at most
`max(maxResults, 0)`. And `SearchPeople` does return: for a configuration `Validate` accepts
whose `MaxDelaySeconds` is below the largest `int`, and fuel for the wait, no call panics. -/
theorem search_people_candidates (c : Config) (storage : Option Bot.Store) (page : Bot.Page)
    (fuel : Nat) (now : Time) (jobTitle location : String) (maxResults : Int) (r : Rand) :
    (c.Validate = none → c.Timing.MaxDelaySeconds < 9223372036854775807 → 168 ≤ fuel →
      ∃ o profiles err,
        Bot.SearchPeople c storage page fuel now jobTitle location maxResults r = some o ∧
        o.value = some (profiles, err)) ∧
    (∀ (o : Outcome (List String × Option String)) (profiles : List String)
        (err : Option String),
      Bot.SearchPeople c storage page fuel now jobTitle location maxResults r = some o →
      o.value = some (profiles, err) →
      profiles.Nodup ∧
      (∀ u ∈ profiles, Contains u "/in/" = true ∧ Contains u "/search/" = false) ∧
      (∀ st, storage = some st → ∀ u ∈ profiles, st.HasSentConnectionRequest u = .ok false) ∧
      profiles.Sublist page.hrefs ∧
      (profiles.length : Int) ≤ max maxResults 0) := by
  constructor
  · intro hvalid hmax hfuel
    obtain ⟨v, hv, _⟩ :=
      Bot.searchBody_completes c storage page jobTitle location maxResults hvalid hmax r
    have hgate : ∃ res, (if (c.Stealth.BusinessHoursOnly && !Bot.isBusinessHours c now) = true
        then Bot.waitForBusinessHours c fuel now else some (now, [])) = some res := by
      split_ifs
      · obtain ⟨res, hres, _⟩ := Bot.waitForBusinessHours_terminates c now fuel hfuel
        exact ⟨res, hres⟩
      · exact ⟨(now, []), rfl⟩
    obtain ⟨res, hres⟩ := hgate
    refine ⟨⟨res.2 ++ (Bot.searchBody c storage page jobTitle location maxResults r).events,
      (Bot.searchBody c storage page jobTitle location maxResults r).rand,
      (Bot.searchBody c storage page jobTitle location maxResults r).value⟩, v.1, v.2, ?_, hv⟩
    unfold Bot.SearchPeople
    simp only [hres]
  · intro o profiles err hrun hval
    rw [Bot.SearchPeople_value c storage page fuel now jobTitle location maxResults r o hrun]
      at hval
    rcases Bot.searchBody_returns c storage page jobTitle location maxResults r _ hval with h | h
    · simp only at h
      subst h
      simp
    · obtain ⟨elements, hel, hp⟩ := h
      obtain ⟨extra, h1, h2, h3, h4, h5⟩ :=
        Bot.collectProfiles_spec storage maxResults elements 0 [] []
      simp only at hp
      rw [h1, List.nil_append] at hp
      subst hp
      refine ⟨h3, fun u hu => ⟨(h4 u hu).2.1, (h4 u hu).2.2.1⟩,
        fun st hst u hu => (h4 u hu).2.2.2 st hst, ?_, ?_⟩
      · unfold Bot.Page.hrefs
        rw [hel]
        exact h2
      · by_cases hex : profiles = []
        · subst hex
          simp
        · have := h5 hex
          simp only [List.nil_append] at this
          exact le_trans this (le_max_left _ _)

/-- The statement of C5 on a page of seven links with `maxResults = 2`, on a Tuesday at
10:00: the list returned is the first and the sixth link. -/
theorem search_people_candidates_witness :
    (Bot.SearchPeople DefaultConfig (some ⟨.ok 3, fun u => .ok (decide (u = "https://l.com/in/c"))⟩)
        ⟨fun _ => none, fun _ => .ok [.ok "https://l.com/in/a", .ok "https://l.com/search/in/b",
          .ok "https://l.com/in/a", .error "gone", .ok "https://l.com/in/c",
          .ok "https://l.com/in/d", .ok "https://l.com/in/e"]⟩
        168 ⟨1704794400000000000, 0⟩ "engineer" "india" 2 ⟨fun n => n, 0⟩).map (fun o => o.value)
      = some (some (["https://l.com/in/a", "https://l.com/in/d"], none)) ∧
    ["https://l.com/in/a", "https://l.com/in/d"].Nodup ∧
    ((["https://l.com/in/a", "https://l.com/in/d"].length : Nat) : Int) ≤ max 2 0 ∧
    (∃ o profiles err,
      Bot.SearchPeople DefaultConfig
        (some ⟨.ok 3, fun u => .ok (decide (u = "https://l.com/in/c"))⟩)
        ⟨fun _ => none, fun _ => .ok [.ok "https://l.com/in/a", .ok "https://l.com/search/in/b",
          .ok "https://l.com/in/a", .error "gone", .ok "https://l.com/in/c",
          .ok "https://l.com/in/d", .ok "https://l.com/in/e"]⟩
        168 ⟨1704794400000000000, 0⟩ "engineer" "india" 2 ⟨fun n => n, 0⟩ = some o ∧
      o.value = some (profiles, err)) := by
  have hrun : Bot.SearchPeople DefaultConfig
      (some ⟨.ok 3, fun u => .ok (decide (u = "https://l.com/in/c"))⟩)
        ⟨fun _ => none, fun _ => .ok [.ok "https://l.com/in/a", .ok "https://l.com/search/in/b",
          .ok "https://l.com/in/a", .error "gone", .ok "https://l.com/in/c",
          .ok "https://l.com/in/d", .ok "https://l.com/in/e"]⟩
        168 ⟨1704794400000000000, 0⟩ "engineer" "india" 2 ⟨fun n => n, 0⟩ = some _ := rfl
  have h := (search_people_candidates _ _ _ _ _ _ _ _ _).2 _ _ _ hrun rfl
  exact ⟨rfl, h.1, h.2.2.2.2,
    (search_people_candidates _ _ _ _ _ _ _ _ _).1 (by decide) (by decide) (by decide)⟩

/-! ### Business hours -/

/-- C6: with `BusinessHoursOnly` off both `LinkedInBot.isBusinessHours` and
`Config.IsBusinessHours` return true at every weekday and hour; with it on they return true
exactly when the weekday is Monday to Friday and `9 <= hour < 17`; and the two agree on every
input, also when the weekday and hour are read from a clock. -/
theorem business_hours_gate (c : Config) (weekday : Weekday) (hour : Int) :
    (c.Stealth.BusinessHoursOnly = false →
      Bot.isBusinessHoursAt c weekday hour = true ∧ c.IsBusinessHoursAt weekday hour = true) ∧
    (c.Stealth.BusinessHoursOnly = true →
      (Bot.isBusinessHoursAt c weekday hour = true ↔
        weekday ∈ [Weekday.Monday, Weekday.Tuesday, Weekday.Wednesday, Weekday.Thursday,
          Weekday.Friday] ∧ 9 ≤ hour ∧ hour < 17) ∧
      (c.IsBusinessHoursAt weekday hour = true ↔
        weekday ∈ [Weekday.Monday, Weekday.Tuesday, Weekday.Wednesday, Weekday.Thursday,
          Weekday.Friday] ∧ 9 ≤ hour ∧ hour < 17)) ∧
    Bot.isBusinessHoursAt c weekday hour = c.IsBusinessHoursAt weekday hour ∧
    (∀ now : Time, Bot.isBusinessHours c now = c.IsBusinessHours now) := by
  have agree : ∀ (w : Weekday) (h : Int),
      Bot.isBusinessHoursAt c w h = c.IsBusinessHoursAt w h := by
    intro w h
    unfold Bot.isBusinessHoursAt Config.IsBusinessHoursAt
    cases c.Stealth.BusinessHoursOnly <;> cases w <;> simp [Weekday.toInt]
  refine ⟨?_, ?_, agree weekday hour, fun now => agree _ _⟩
  · intro hoff
    rw [← agree]
    unfold Bot.isBusinessHoursAt
    simp [hoff]
  · intro hon
    rw [← agree]
    unfold Bot.isBusinessHoursAt
    cases weekday <;> simp [hon]

/-- The statement of C6 with `BusinessHoursOnly` on at Saturday 10:00 (false), Tuesday 10:00
(true) and Wednesday 17:00 (false), for both implementations. -/
theorem business_hours_gate_witness :
    (Bot.isBusinessHoursAt DefaultConfig Weekday.Saturday 10 = false ∧
      DefaultConfig.IsBusinessHoursAt Weekday.Saturday 10 = false) ∧
    (Bot.isBusinessHoursAt DefaultConfig Weekday.Tuesday 10 = true ∧
      DefaultConfig.IsBusinessHoursAt Weekday.Tuesday 10 = true) ∧
    (Bot.isBusinessHoursAt DefaultConfig Weekday.Wednesday 17 = false ∧
      DefaultConfig.IsBusinessHoursAt Weekday.Wednesday 17 = false) ∧
    (Bot.isBusinessHoursAt DefaultConfig Weekday.Tuesday 10 = true ↔
      Weekday.Tuesday ∈ [Weekday.Monday, Weekday.Tuesday, Weekday.Wednesday, Weekday.Thursday,
        Weekday.Friday] ∧ (9 : Int) ≤ 10 ∧ (10 : Int) < 17) :=
  ⟨by decide, by decide, by decide,
   ((business_hours_gate DefaultConfig Weekday.Tuesday 10).2.1 rfl).1⟩

/-! ### The delay at the largest `int` -/

/-- C7, evaluated at the failing input: the configuration with `MinDelaySeconds = 0` and
`MaxDelaySeconds = 9223372036854775807` (otherwise the defaults) is accepted by `Validate`,
the bound `max-min+1` wraps to `-9223372036854775808`, and `randomDelay` panics in `Intn`
for every random source, before any sleep. -/
theorem random_delay_panics_at_max_int :
    ({ DefaultConfig with Timing := { DefaultConfig.Timing with
        MinDelaySeconds := 0, MaxDelaySeconds := 9223372036854775807 } } : Config).Validate
      = none ∧
    wrap64 (wrap64 (9223372036854775807 - 0) + 1) = -9223372036854775808 ∧
    ∀ r : Rand,
      (Bot.randomDelay { DefaultConfig with Timing := { DefaultConfig.Timing with
        MinDelaySeconds := 0, MaxDelaySeconds := 9223372036854775807 } } r).value = none ∧
      (Bot.randomDelay { DefaultConfig with Timing := { DefaultConfig.Timing with
        MinDelaySeconds := 0, MaxDelaySeconds := 9223372036854775807 } } r).events = [] :=
  ⟨by decide, by decide, fun _ => ⟨rfl, rfl⟩⟩

/-! ### The cooldown of the send loop -/

theorem Run.bind_value_some {α β : Type} (m : Run α) (f : α → Run β) (r : Rand) (b : β)
    (h : ((m >>= f) r).value = some b) :
    ∃ a, (m r).value = some a ∧ (f a (m r).rand).value = some b ∧
      ((m >>= f) r).events = (m r).events ++ (f a (m r).rand).events := by
  have h2 : (Run.bind m f r).value = some b := h
  show ∃ a, (m r).value = some a ∧ (f a (m r).rand).value = some b ∧
      (Run.bind m f r).events = (m r).events ++ (f a (m r).rand).events
  unfold Run.bind at h2 ⊢
  cases hv : (m r).value with
  | none => rw [hv] at h2; cases h2
  | some a =>
    rw [hv] at h2
    exact ⟨a, rfl, h2, rfl⟩

namespace Main

theorem SendConnectionRequest_returns_nil (d : Driver) (profileURL message : String) :
    Returns (SendConnectionRequest d profileURL message) (fun err => err = none) := by
  unfold SendConnectionRequest
  iterate 10 refine returns_bind (fun _ => ?_)
  exact returns_pure rfl

end Main

/-- C8: the cooldown the send loop of `main` computes is `30 + r` seconds for the value `r`
of `rand.Intn(61)`, with `0 <= r <= 60`, so it lies in `[30, 90]`; every value of `[30, 90]`,
in particular 30 and 90, is the cooldown for some random source; and a run of the loop over
one candidate that completes ends with the sleep of that cooldown. -/
theorem cooldown_in_full_range :
    (∀ g : Rand, ∃ r g1, g.Intn 61 = some (r, g1) ∧ 0 ≤ r ∧ r ≤ 60 ∧
      Main.cooldown g = some (30 + r, g1) ∧ 30 ≤ 30 + r ∧ 30 + r ≤ 90) ∧
    (∀ r : Int, 0 ≤ r → r ≤ 60 →
      ∃ g : Rand, (Main.cooldown g).map Prod.fst = some (30 + r)) ∧
    (∀ (d : Main.Driver) (message profile : String) (g rb : Rand),
      (Main.sendLoop d message [profile] g rb).value = some () →
      ∃ r g1, g.Intn 61 = some (r, g1) ∧ 30 ≤ 30 + r ∧ 30 + r ≤ 90 ∧
        (Main.sendLoop d message [profile] g rb).events.getLast?
          = some (Event.sleep ((30 + r) * Second))) := by
  have hdraw : ∀ g : Rand, g.Intn 61 = some (((g.draw.1 % 61 : Nat) : Int), g.draw.2) := by
    intro g
    unfold Rand.Intn
    rw [if_neg (by decide)]
    rfl
  refine ⟨?_, ?_, ?_⟩
  · intro g
    refine ⟨((g.draw.1 % 61 : Nat) : Int), g.draw.2, hdraw g, by omega, by omega,
      Main.cooldown_some g, by omega, by omega⟩
  · intro r h0 h1
    refine ⟨⟨fun _ => r.toNat, 0⟩, ?_⟩
    rw [Main.cooldown_some]
    simp only [Option.map_some', Rand.draw]
    congr 2
    omega
  · intro d message profile g rb hv
    refine ⟨((g.draw.1 % 61 : Nat) : Int), g.draw.2, hdraw g, by omega, by omega, ?_⟩
    unfold Main.sendLoop at hv ⊢
    obtain ⟨err, herr, hrest, hev⟩ := Run.bind_value_some _ _ rb () hv
    have hnil := Main.SendConnectionRequest_returns_nil d profile message rb err herr
    simp only at hnil
    subst hnil
    rw [hev]
    simp only [Main.cooldown_some]
    have : ((sleep ((30 + ((g.draw.1 % 61 : Nat) : Int)) * Second) >>= fun _ =>
        Main.sendLoop d message [] g.draw.2)
        (Main.SendConnectionRequest d profile message rb).rand).events
        = [Event.sleep ((30 + ((g.draw.1 % 61 : Nat) : Int)) * Second)] := rfl
    rw [this]
    simp

/-- The statement of C8 at the ends of the range: 30 and 90 seconds are both drawn. -/
theorem cooldown_in_full_range_witness :
    (∃ g : Rand, (Main.cooldown g).map Prod.fst = some (30 + 0)) ∧
    (∃ g : Rand, (Main.cooldown g).map Prod.fst = some (30 + 60)) ∧
    (Main.sendLoop ⟨fun _ => true, fun _ _ => true, fun _ _ => []⟩ "Hi" ["A"]
        ⟨fun _ => 60, 0⟩ ⟨fun _ => 0, 0⟩).events.getLast?
      = some (Event.sleep 90000000000) ∧
    (∃ r g1, (⟨fun _ => 60, 0⟩ : Rand).Intn 61 = some (r, g1) ∧ 30 ≤ 30 + r ∧ 30 + r ≤ 90 ∧
      (Main.sendLoop ⟨fun _ => true, fun _ _ => true, fun _ _ => []⟩ "Hi" ["A"]
        ⟨fun _ => 60, 0⟩ ⟨fun _ => 0, 0⟩).events.getLast?
          = some (Event.sleep ((30 + r) * Second))) :=
  ⟨cooldown_in_full_range.2.1 0 (by decide) (by decide),
   cooldown_in_full_range.2.1 60 (by decide) (by decide),
   by decide,
   cooldown_in_full_range.2.2 ⟨fun _ => true, fun _ _ => true, fun _ _ => []⟩ "Hi" "A"
     ⟨fun _ => 60, 0⟩ ⟨fun _ => 0, 0⟩ (by decide)⟩

/-! ### Rules for `Stable` -/

theorem Rand.Agree.draw {r1 r2 : Rand} (h : r1.Agree r2) :
    r1.draw.1 = r2.draw.1 ∧ r1.draw.2.Agree r2.draw.2 := by
  constructor
  · have := h 0
    simpa [Rand.draw] using this
  · intro i
    have := h (i + 1)
    simp only [Rand.draw]
    rw [show r1.pos + 1 + i = r1.pos + (i + 1) by omega,
      show r2.pos + 1 + i = r2.pos + (i + 1) by omega]
    exact this

theorem stable_pure {α : Type} (a : α) : Stable (pure a : Run α) :=
  fun _ _ h => ⟨rfl, rfl, h⟩

theorem stable_emit (e : Event) : Stable (emit e) :=
  fun _ _ h => ⟨rfl, rfl, h⟩

theorem stable_sleep (ns : Int) : Stable (sleep ns) :=
  fun _ _ h => ⟨rfl, rfl, h⟩

theorem stable_Intn (n : Int) : Stable (Intn n) := by
  intro r1 r2 h
  obtain ⟨hd, ha⟩ := h.draw
  unfold Intn Rand.Intn
  by_cases hn : n ≤ 0
  · rw [if_pos hn, if_pos hn]
    exact ⟨rfl, rfl, h⟩
  · rw [if_neg hn, if_neg hn]
    exact ⟨rfl, by simp only [hd], ha⟩

theorem stable_Float64 : Stable Float64 := by
  intro r1 r2 h
  obtain ⟨hd, ha⟩ := h.draw
  unfold Float64 Rand.Float64
  exact ⟨rfl, by simp only [hd], ha⟩

theorem stable_bind {α β : Type} {m : Run α} {f : α → Run β}
    (hm : Stable m) (hf : ∀ a, Stable (f a)) : Stable (m >>= f) := by
  intro r1 r2 h
  obtain ⟨he, hv, hr⟩ := hm r1 r2 h
  show (Run.bind m f r1).events = (Run.bind m f r2).events ∧
    (Run.bind m f r1).value = (Run.bind m f r2).value ∧
    (Run.bind m f r1).rand.Agree (Run.bind m f r2).rand
  unfold Run.bind
  cases hv1 : (m r1).value with
  | none =>
    rw [hv1] at hv
    rw [← hv]
    exact ⟨he, rfl, hr⟩
  | some a =>
    rw [hv1] at hv
    rw [← hv]
    obtain ⟨he2, hv2, hr2⟩ := hf a _ _ hr
    simp only
    exact ⟨by rw [he, he2], hv2, hr2⟩

theorem stable_forEach {α : Type} {body : α → Run Unit} (h : ∀ a, Stable (body a))
    (as : List α) : Stable (forEach body as) := by
  induction as with
  | nil => exact stable_pure ()
  | cons a as ih =>
    unfold forEach
    exact stable_bind (h a) (fun _ => ih)

/-! ### `humanType` -/

namespace Bot

theorem injectTypo_stable : Stable injectTypo := by
  unfold injectTypo
  refine stable_bind (stable_Intn _) (fun _ => ?_)
  refine stable_bind (stable_emit _) (fun _ => ?_)
  refine stable_bind (stable_Intn _) (fun _ => ?_)
  refine stable_bind (stable_sleep _) (fun _ => ?_)
  refine stable_bind (stable_emit _) (fun _ => ?_)
  refine stable_bind (stable_Intn _) (fun _ => ?_)
  exact stable_sleep _

theorem humanTypeChar_stable (c : Config) (minSpeed maxSpeed : Int) (char : Char) :
    Stable (humanTypeChar c minSpeed maxSpeed char) := by
  unfold humanTypeChar
  refine stable_bind ?_ (fun typo => ?_)
  · split_ifs
    · exact stable_bind stable_Float64 (fun _ => stable_pure _)
    · exact stable_pure _
  · refine stable_bind ?_ (fun _ => ?_)
    · split_ifs
      · exact injectTypo_stable
      · exact stable_pure _
    · refine stable_bind (stable_emit _) (fun _ => ?_)
      refine stable_bind (stable_Intn _) (fun _ => ?_)
      exact stable_sleep _

theorem humanType_stable (c : Config) (text : String) : Stable (humanType c text) := by
  unfold humanType
  split_ifs
  · exact stable_bind (stable_emit _) (fun _ => stable_pure _)
  · exact stable_bind (stable_forEach (humanTypeChar_stable c _ _) _)
      (fun _ => stable_pure _)

/-- The configuration enters `humanType` through the toggle and the two typing bounds only. -/
theorem humanType_congr (c1 c2 : Config) (text : String)
    (hon : c1.Stealth.HumanTyping = c2.Stealth.HumanTyping)
    (hmin : c1.Timing.TypingSpeedMinMs = c2.Timing.TypingSpeedMinMs)
    (hmax : c1.Timing.TypingSpeedMaxMs = c2.Timing.TypingSpeedMaxMs) :
    humanType c1 text = humanType c2 text := by
  unfold humanType humanTypeChar
  rw [hon, hmin, hmax]

theorem injectTypo_counts :
    Completes injectTypo (fun es _ => inputCount es = 1 ∧ backspaceCount es = 1) := by
  unfold injectTypo
  refine completes_bind_Intn (by decide) ?_
  intro w _ _
  refine completes_bind_emit ?_
  refine completes_bind_Intn (by decide) ?_
  intro d1 _ _
  refine completes_bind_sleep ?_
  refine completes_bind_emit ?_
  refine completes_bind_Intn (by decide) ?_
  intro d2 _ _
  exact completes_sleep ⟨by simp [inputCount], by simp [backspaceCount]⟩

theorem humanTypeChar_counts (c : Config) (minSpeed maxSpeed : Int) (char : Char)
    (hbound : 0 < wrap64 (wrap64 (maxSpeed - minSpeed) + 1)) :
    Completes (humanTypeChar c minSpeed maxSpeed char)
      (fun es _ => inputCount es = 1 + backspaceCount es) := by
  unfold humanTypeChar
  refine completes_bind (P := fun es _ => es = []) ?_ ?_
  · split_ifs
    · exact completes_bind_Float64 (fun _ => completes_pure rfl)
    · exact completes_pure rfl
  · intro typo es hes
    subst hes
    simp only [List.nil_append]
    refine completes_bind
      (P := fun es _ => inputCount es = backspaceCount es) ?_ ?_
    · split_ifs
      · exact completes_mono injectTypo_counts (fun es _ h => by rw [h.1, h.2])
      · exact completes_pure rfl
    · intro _ es hes
      refine completes_bind_emit ?_
      refine completes_bind_Intn hbound ?_
      intro v _ _
      refine completes_sleep ?_
      simp only [inputCount, backspaceCount, List.countP_append, List.countP_cons,
        List.countP_nil] at hes ⊢
      simp only [hes]
      simp
      omega

theorem forEach_humanTypeChar_counts (c : Config) (minSpeed maxSpeed : Int)
    (hbound : 0 < wrap64 (wrap64 (maxSpeed - minSpeed) + 1)) (chars : List Char) :
    Completes (forEach (humanTypeChar c minSpeed maxSpeed) chars)
      (fun es _ => inputCount es = chars.length + backspaceCount es) := by
  induction chars with
  | nil => exact completes_pure rfl
  | cons ch rest ih =>
    unfold forEach
    refine completes_bind (humanTypeChar_counts c minSpeed maxSpeed ch hbound) ?_
    intro _ es hes
    refine completes_mono ih ?_
    intro es2 _ hes2
    simp only [inputCount, backspaceCount, List.countP_append, List.length_cons] at hes hes2 ⊢
    omega

theorem typing_bound_pos (c : Config) (hvalid : c.Validate = none)
    (hint : isInt64 c.Timing.TypingSpeedMaxMs) :
    0 < wrap64 (wrap64 (c.Timing.TypingSpeedMaxMs - c.Timing.TypingSpeedMinMs) + 1) := by
  unfold Config.Validate at hvalid
  split_ifs at hvalid
  unfold isInt64 at hint
  unfold wrap64
  omega

theorem humanType_counts (c : Config) (text : String) (hon : c.Stealth.HumanTyping = true)
    (hbound : 0 < wrap64 (wrap64 (c.Timing.TypingSpeedMaxMs - c.Timing.TypingSpeedMinMs) + 1)) :
    Completes (humanType c text)
      (fun es err => err = none ∧ inputCount es = text.length + backspaceCount es) := by
  unfold humanType
  rw [if_neg (by simp [hon])]
  refine completes_bind (forEach_humanTypeChar_counts c _ _ hbound text.toList) ?_
  intro _ es hes
  refine completes_pure ⟨rfl, ?_⟩
  simp only [List.append_nil]
  exact hes

end Bot

/-! ### `moveMouseToElement` -/

namespace Bot

theorem bezierStep_moves (fl : Float64Ops) (startX startY targetX targetY steps i : Int) :
    Completes (bezierStep fl startX startY targetX targetY steps i)
      (fun es _ => (moves es).length = 1) := by
  unfold bezierStep
  refine completes_bind_Intn (by decide) ?_
  intro rx _ _
  refine completes_bind_Intn (by decide) ?_
  intro ry _ _
  refine completes_bind_emit ?_
  refine completes_bind_Intn (by decide) ?_
  intro d _ _
  exact completes_sleep rfl

theorem bezierLoop_moves (fl : Float64Ops) (startX startY targetX targetY steps : Int)
    (n : Nat) : ∀ i : Int,
    Completes (forRange (bezierStep fl startX startY targetX targetY steps) n i)
      (fun es _ => (moves es).length = n) := by
  induction n with
  | zero =>
    intro i
    exact completes_pure rfl
  | succ n ih =>
    intro i
    unfold forRange
    refine completes_bind (bezierStep_moves fl startX startY targetX targetY steps i) ?_
    intro _ es hes
    refine completes_mono (ih (i + 1)) ?_
    intro es2 _ hes2
    simp only [moves, List.filterMap_append, List.length_append] at hes hes2 ⊢
    omega

end Bot

/-- C10: with `MouseMovement` on and the bounds of the element available, `moveMouseToElement`
completes for every rectangle, every random source and every `float64` arithmetic; its
pointer moves are the 16 to 26 moves of the curve, then the overshoot
`(targetX+ox, targetY+oy)` with `10 <= ox <= 20` and `10 <= oy <= 20` (the sums as Go's `int`
computes them, which is the exact sum when `targetX + 20` and `targetY + 20` are `int`
values), then, last, the move to `(targetX, targetY)`, the centre of the element. -/
theorem move_ends_at_target (c : Config) (fl : Float64Ops) (rect : Rect fl.F) (r : Rand)
    (hon : c.Stealth.MouseMovement = true) :
    (Bot.moveMouseToElement c fl (.ok rect) r).value = some none ∧
    ∃ (curve : List (Int × Int)) (ox oy : Int),
      16 ≤ curve.length ∧ curve.length ≤ 26 ∧
      10 ≤ ox ∧ ox ≤ 20 ∧ 10 ≤ oy ∧ oy ≤ 20 ∧
      moves (Bot.moveMouseToElement c fl (.ok rect) r).events
        = curve ++
          [(wrap64 (fl.toInt (fl.add rect.X (fl.div rect.Width (fl.ofInt 2))) + ox),
            wrap64 (fl.toInt (fl.add rect.Y (fl.div rect.Height (fl.ofInt 2))) + oy)),
           (fl.toInt (fl.add rect.X (fl.div rect.Width (fl.ofInt 2))),
            fl.toInt (fl.add rect.Y (fl.div rect.Height (fl.ofInt 2))))] ∧
      (moves (Bot.moveMouseToElement c fl (.ok rect) r).events).getLast?
        = some (fl.toInt (fl.add rect.X (fl.div rect.Width (fl.ofInt 2))),
                fl.toInt (fl.add rect.Y (fl.div rect.Height (fl.ofInt 2)))) ∧
      (isInt64 (fl.toInt (fl.add rect.X (fl.div rect.Width (fl.ofInt 2)))) →
        isInt64 (fl.toInt (fl.add rect.X (fl.div rect.Width (fl.ofInt 2))) + 20) →
        wrap64 (fl.toInt (fl.add rect.X (fl.div rect.Width (fl.ofInt 2))) + ox)
          = fl.toInt (fl.add rect.X (fl.div rect.Width (fl.ofInt 2))) + ox) ∧
      (isInt64 (fl.toInt (fl.add rect.Y (fl.div rect.Height (fl.ofInt 2)))) →
        isInt64 (fl.toInt (fl.add rect.Y (fl.div rect.Height (fl.ofInt 2))) + 20) →
        wrap64 (fl.toInt (fl.add rect.Y (fl.div rect.Height (fl.ofInt 2))) + oy)
          = fl.toInt (fl.add rect.Y (fl.div rect.Height (fl.ofInt 2))) + oy) := by
  have key : Completes (Bot.moveMouseToElement c fl (.ok rect)) (fun es err => err = none ∧
      ∃ (curve : List (Int × Int)) (ox oy : Int),
        16 ≤ curve.length ∧ curve.length ≤ 26 ∧
        10 ≤ ox ∧ ox ≤ 20 ∧ 10 ≤ oy ∧ oy ≤ 20 ∧
        moves es = curve ++
          [(wrap64 (fl.toInt (fl.add rect.X (fl.div rect.Width (fl.ofInt 2))) + ox),
            wrap64 (fl.toInt (fl.add rect.Y (fl.div rect.Height (fl.ofInt 2))) + oy)),
           (fl.toInt (fl.add rect.X (fl.div rect.Width (fl.ofInt 2))),
            fl.toInt (fl.add rect.Y (fl.div rect.Height (fl.ofInt 2))))]) := by
    unfold Bot.moveMouseToElement
    rw [if_neg (by simp [hon])]
    refine completes_bind_emit ?_
    simp only
    refine completes_bind_emit ?_
    refine completes_bind_Intn (by decide) ?_
    intro rx _ _
    refine completes_bind_Intn (by decide) ?_
    intro ry _ _
    refine completes_bind_Intn (by decide) ?_
    intro s hs0 hs1
    refine completes_bind (Bot.bezierLoop_moves fl _ _ _ _ _ _ 0) ?_
    intro _ es hes
    refine completes_bind_Intn (by decide) ?_
    intro ox hox0 hox1
    refine completes_bind_Intn (by decide) ?_
    intro oy hoy0 hoy1
    refine completes_bind_emit ?_
    refine completes_bind_Intn (by decide) ?_
    intro d _ _
    refine completes_bind_sleep ?_
    refine completes_bind_emit ?_
    refine completes_pure ⟨rfl, moves es, 10 + ox, 10 + oy, ?_, ?_, by omega, by omega,
      by omega, by omega, ?_⟩
    · rw [hes]; omega
    · rw [hes]; omega
    · simp [moves, List.filterMap_append]
  obtain ⟨err, hv, herr, curve, ox, oy, h1, h2, h3, h4, h5, h6, hm⟩ := key r
  subst herr
  refine ⟨hv, curve, ox, oy, h1, h2, h3, h4, h5, h6, hm, ?_, ?_, ?_⟩
  · rw [hm]
    simp
  · intro ha hb
    unfold isInt64 at ha hb
    unfold wrap64
    omega
  · intro ha hb
    unfold isInt64 at ha hb
    unfold wrap64
    omega

/-- The statement of C10 at the element with corner (10, 20), width 100 and height 50, in
exact arithmetic: the last move is to the centre (60, 45). -/
theorem move_ends_at_target_witness :
    (moves (Bot.moveMouseToElement DefaultConfig ratOps
      (.ok ⟨(10 : ℚ), (20 : ℚ), (100 : ℚ), (50 : ℚ)⟩)
      ⟨fun n => n * 7919 + 13, 0⟩).events).getLast? = some (60, 45) := by
  obtain ⟨_, _, _, _, _, _, _, _, _, _, hlast, _⟩ :=
    (move_ends_at_target DefaultConfig ratOps ⟨(10 : ℚ), (20 : ℚ), (100 : ℚ), (50 : ℚ)⟩
      ⟨fun n => n * 7919 + 13, 0⟩ rfl).2
  have hx : ratOps.toInt (ratOps.add (10 : ℚ) (ratOps.div (100 : ℚ) (ratOps.ofInt 2))) = 60 := by
    have h : ratOps.add (10 : ℚ) (ratOps.div (100 : ℚ) (ratOps.ofInt 2)) = (60 : ℚ) := by
      show (10 : ℚ) + (100 : ℚ) / ((2 : Int) : ℚ) = 60
      norm_num
    rw [h]
    rfl
  have hy : ratOps.toInt (ratOps.add (20 : ℚ) (ratOps.div (50 : ℚ) (ratOps.ofInt 2))) = 45 := by
    have h : ratOps.add (20 : ℚ) (ratOps.div (50 : ℚ) (ratOps.ofInt 2)) = (45 : ℚ) := by
      show (20 : ℚ) + (50 : ℚ) / ((2 : Int) : ℚ) = 45
      norm_num
    rw [h]
    rfl
  rw [hlast]
  simp only [hx, hy]

/-! ### `humanScroll` -/

namespace Bot

end Bot

theorem configNextHour_eq (now : Time) :
    Config.nextHour now = { now with unixNano := now.unixNano + 3600000000000 -
      (now.unixNano + 3600000000000 + 62135596800000000000) % 3600000000000 } := by
  unfold Config.nextHour Time.Add Time.Truncate Hour unixToInternal Second
  rw [if_neg (by decide)]
  simp only
  congr 1

/-- The two orders of `Truncate` and `Add` give the same instant. -/
theorem nextHour_agree (now : Time) : Config.nextHour now = Bot.nextHour now := by
  rw [configNextHour_eq, Bot.nextHour_eq]
  congr 1
  omega

/-- The wake-up instant is later than `now`, by at most an hour, and is a whole number of
hours of absolute time. -/
theorem nextHour_later (now : Time) :
    now.unixNano < (Bot.nextHour now).unixNano ∧
    (Bot.nextHour now).unixNano ≤ now.unixNano + Hour ∧
    (Bot.nextHour now).unixNano % Hour = 0 := by
  rw [Bot.nextHour_eq]
  unfold Hour
  simp only
  omega

/-- On the local clock the wake-up instant shows the minute and the second of the zone
offset: zero when the offset is a whole number of hours, and only then. -/
theorem nextHour_local (now : Time) :
    (Bot.nextHour now).Minute = now.offset % 3600 / 60 ∧
    (Bot.nextHour now).Second = now.offset % 60 ∧
    (Bot.nextHour now).Nanosecond = 0 := by
  rw [Bot.nextHour_eq]
  unfold Time.Minute Time.Second Time.Nanosecond Time.localSeconds Second
  simp only
  omega

theorem nextHour_whole_hour_zone (now : Time) (h : now.offset % 3600 = 0) :
    (Bot.nextHour now).Minute = 0 ∧ (Bot.nextHour now).Second = 0 := by
  obtain ⟨hm, hs, _⟩ := nextHour_local now
  rw [hm, hs]
  omega

/-- C12, evaluated at the failing input: at 2024-01-09 03:10:00 UTC on a clock of zone
UTC+05:30 (local 08:40 on a Tuesday) the wake-up instant of both implementations is local
09:30, not 09:00, and the wait of the bot sleeps the 50 minutes until then and ends there.
For every instant and offset the two implementations agree and the wake-up is later than
`now` by at most an hour, but its local minute and second are those of the zone offset. -/
theorem next_hour_off_the_local_hour :
    (Time.mk 1704769800000000000 19800).Hour = 8 ∧
    (Time.mk 1704769800000000000 19800).Minute = 40 ∧
    (Bot.nextHour ⟨1704769800000000000, 19800⟩).Hour = 9 ∧
    (Bot.nextHour ⟨1704769800000000000, 19800⟩).Minute = 30 ∧
    (Config.nextHour ⟨1704769800000000000, 19800⟩).Hour = 9 ∧
    (Config.nextHour ⟨1704769800000000000, 19800⟩).Minute = 30 ∧
    Bot.waitForBusinessHours DefaultConfig 1 ⟨1704769800000000000, 19800⟩
      = some (⟨1704772800000000000, 19800⟩, [Event.sleep 3000000000000]) ∧
    DefaultConfig.WaitForBusinessHours 1 ⟨1704769800000000000, 19800⟩
      = some (⟨1704772800000000000, 19800⟩, [Event.sleep 3000000000000]) ∧
    (∀ now : Time,
      Config.nextHour now = Bot.nextHour now ∧
      now.unixNano < (Bot.nextHour now).unixNano ∧
      (Bot.nextHour now).unixNano ≤ now.unixNano + Hour ∧
      (Bot.nextHour now).Minute = now.offset % 3600 / 60 ∧
      (Bot.nextHour now).Second = now.offset % 60) := by
  refine ⟨by decide, by decide, by decide, by decide, by decide, by decide, by decide,
    by decide, ?_⟩
  intro now
  exact ⟨nextHour_agree now, (nextHour_later now).1, (nextHour_later now).2.1,
    (nextHour_local now).1, (nextHour_local now).2.1⟩

/-! ### Replaying `humanType` on an input field -/

theorem replay_append (es1 es2 : List Event) (field : List Char) :
    replay (es1 ++ es2) field = replay es2 (replay es1 field) := by
  unfold replay
  exact List.foldl_append _ _ _ _

theorem allStates_append (P : List Char → Prop) (es1 es2 : List Event) :
    ∀ field, allStates P field (es1 ++ es2) ↔
      allStates P field es1 ∧ allStates P (replay es1 field) es2 := by
  induction es1 with
  | nil =>
    intro field
    cases es2 with
    | nil => simp [allStates, replay]
    | cons e es => simp [allStates, replay]
  | cons e es ih =>
    intro field
    show (P field ∧ allStates P (applyEvent field e) (es ++ es2)) ↔
      (P field ∧ allStates P (applyEvent field e) es) ∧
        allStates P (replay es (applyEvent field e)) es2
    rw [ih]
    tauto

theorem allStates_mono {P Q : List Char → Prop} (h : ∀ s, P s → Q s) (es : List Event) :
    ∀ field, allStates P field es → allStates Q field es := by
  induction es with
  | nil =>
    intro field hf
    exact h _ hf
  | cons e es ih =>
    intro field hf
    exact ⟨h _ hf.1, ih _ hf.2⟩

theorem allStates_head (P : List Char → Prop) (es : List Event) (field : List Char)
    (h : allStates P field es) : P field := by
  cases es with
  | nil => exact h
  | cons e es => exact h.1

theorem always_pure {α : Type} {Q : List Event → Option α → Prop} {a : α}
    (h : Q [] (some a)) : Always (pure a : Run α) Q :=
  fun _ => h

theorem always_mono {α : Type} {m : Run α} {P Q : List Event → Option α → Prop}
    (hm : Always m P) (h : ∀ es v, P es v → Q es v) : Always m Q :=
  fun r => h _ _ (hm r)

theorem always_of_completes {α : Type} {m : Run α} {P : List Event → α → Prop}
    (hm : Completes m P) : Always m (fun es v => ∃ a, v = some a ∧ P es a) := by
  intro r
  obtain ⟨a, hv, hp⟩ := hm r
  exact ⟨a, hv, hp⟩

theorem always_bind {α β : Type} {m : Run α} {f : α → Run β}
    {P : List Event → Option α → Prop} {Q : List Event → Option β → Prop}
    (hm : Always m P) (hnone : ∀ es, P es none → Q es none)
    (hf : ∀ a es, P es (some a) → Always (f a) (fun es2 v => Q (es ++ es2) v)) :
    Always (m >>= f) Q := by
  intro r
  have hp := hm r
  show Q (Run.bind m f r).events (Run.bind m f r).value
  unfold Run.bind
  cases hv : (m r).value with
  | none =>
    rw [hv] at hp
    exact hnone _ hp
  | some a =>
    rw [hv] at hp
    exact hf a _ hp (m r).rand

theorem always_Intn (n : Int) :
    Always (Intn n) (fun es v => es = [] ∧ (v = none → n ≤ 0)) := by
  intro r
  unfold Intn Rand.Intn
  by_cases hn : n ≤ 0
  · rw [if_pos hn]
    exact ⟨rfl, fun _ => hn⟩
  · rw [if_neg hn]
    exact ⟨rfl, fun h => by cases h⟩

namespace Bot

theorem injectTypo_events :
    Completes injectTypo (fun es _ => ∃ (w : Char) (d1 d2 : Int),
      es = [Event.input (String.singleton w), Event.sleep d1, Event.press '\x08',
            Event.sleep d2]) := by
  unfold injectTypo
  refine completes_bind_Intn (by decide) ?_
  intro w _ _
  refine completes_bind_emit ?_
  refine completes_bind_Intn (by decide) ?_
  intro d1 _ _
  refine completes_bind_sleep ?_
  refine completes_bind_emit ?_
  refine completes_bind_Intn (by decide) ?_
  intro d2 _ _
  exact completes_sleep ⟨_, _, _, rfl⟩

/-- The events of one iteration of the loop, for any typing bounds: a typo with its backspace
or nothing, then the character, and the pause unless `Intn` panicked on the bounds. -/
theorem humanTypeChar_trace (c : Config) (minSpeed maxSpeed : Int) (char : Char) :
    Always (humanTypeChar c minSpeed maxSpeed char) (fun es v =>
      ∃ (typo pause : List Event),
        es = typo ++ Event.input (String.singleton char) :: pause ∧
        (typo = [] ∨ ∃ (w : Char) (d1 d2 : Int),
          typo = [Event.input (String.singleton w), Event.sleep d1, Event.press '\x08',
                  Event.sleep d2]) ∧
        ((v = none ∧ pause = []) ∨ (v = some () ∧ ∃ d, pause = [Event.sleep d]))) := by
  unfold humanTypeChar
  refine always_bind (P := fun es v => es = [] ∧ v ≠ none) ?_ ?_ ?_
  · split_ifs
    · exact always_mono
        (always_of_completes (completes_bind_Float64 (Q := fun es _ => es = [])
          (fun _ => completes_pure rfl)))
        (fun es v h => by
          obtain ⟨a, rfl, hes⟩ := h
          exact ⟨hes, by simp⟩)
    · exact always_pure ⟨rfl, by simp⟩
  · intro es h
    exact absurd rfl h.2
  · intro typo es hes
    obtain ⟨rfl, _⟩ := hes
    simp only [List.nil_append]
    refine always_bind (P := fun es v => v = some () ∧ (es = [] ∨ ∃ (w : Char) (d1 d2 : Int),
        es = [Event.input (String.singleton w), Event.sleep d1, Event.press '\x08',
              Event.sleep d2])) ?_ ?_ ?_
    · split_ifs
      · exact always_mono (always_of_completes injectTypo_events)
          (fun es v h => by
            obtain ⟨a, rfl, hes⟩ := h
            exact ⟨rfl, Or.inr hes⟩)
      · exact always_pure ⟨rfl, Or.inl rfl⟩
    · intro es h
      cases h.1
    · intro _ es hes
      refine always_bind (P := fun es1 v => es1 = [Event.input (String.singleton char)] ∧
        v = some ()) (fun _ => ⟨rfl, rfl⟩) ?_ ?_
      · intro es1 h
        cases h.2
      · intro _ es1 hes1
        obtain ⟨rfl, _⟩ := hes1
        refine always_bind (always_Intn _) ?_ ?_
        · intro es2 h2
          obtain ⟨rfl, _⟩ := h2
          exact ⟨es, [], by simp, hes.2, Or.inl ⟨rfl, rfl⟩⟩
        · intro d es2 h2
          obtain ⟨rfl, _⟩ := h2
          intro r
          exact ⟨es, [Event.sleep (wrap64 (wrap64 (minSpeed + d) * Millisecond))],
            by simp [sleep, emit], hes.2, Or.inr ⟨rfl, _, rfl⟩⟩

theorem typed_char_trace_replay (char : Char) (typo pause : List Event)
    (htypo : typo = [] ∨ ∃ (w : Char) (d1 d2 : Int),
      typo = [Event.input (String.singleton w), Event.sleep d1, Event.press '\x08',
              Event.sleep d2])
    (hpause : pause = [] ∨ ∃ d, pause = [Event.sleep d])
    (field : List Char) (P : List Char → Prop) (h0 : P field)
    (h1 : ∀ x, P (field ++ [x])) :
    replay (typo ++ Event.input (String.singleton char) :: pause) field = field ++ [char] ∧
    allStates P field (typo ++ Event.input (String.singleton char) :: pause) := by
  have hs : ∀ x : Char, (String.singleton x).toList = [x] := fun _ => rfl
  rcases htypo with rfl | ⟨w, d1, d2, rfl⟩ <;> rcases hpause with rfl | ⟨d, rfl⟩
  · refine ⟨?_, ?_⟩
    · simp [replay, applyEvent, hs]
    · simp only [List.nil_append, applyEvent, hs, allStates]
      exact ⟨h0, h1 char⟩
  · refine ⟨?_, ?_⟩
    · simp [replay, applyEvent, hs]
    · simp only [List.nil_append, applyEvent, hs, allStates]
      exact ⟨h0, h1 char, h1 char⟩
  · refine ⟨?_, ?_⟩
    · simp [replay, applyEvent, hs]
    · simp only [List.cons_append, List.nil_append, applyEvent, hs, allStates, if_true,
        List.dropLast_concat]
      exact ⟨h0, h1 w, h1 w, h0, h0, h1 char⟩
  · refine ⟨?_, ?_⟩
    · simp [replay, applyEvent, hs]
    · simp only [List.cons_append, List.nil_append, applyEvent, hs, allStates, if_true,
        List.dropLast_concat]
      exact ⟨h0, h1 w, h1 w, h0, h0, h1 char, h1 char⟩

/-- Whether or not the loop reaches the end of the text, the content of the field stays a
prefix of the text plus at most one character; when it does, the content is the text. -/
theorem forEach_humanTypeChar_trace (c : Config) (minSpeed maxSpeed : Int)
    (chars : List Char) :
    Always (forEach (humanTypeChar c minSpeed maxSpeed) chars) (fun es v =>
      ∀ field : List Char, (v = some () → replay es field = field ++ chars) ∧
        allStates (fun s => ∃ done extra : List Char, done <+: chars ∧ extra.length ≤ 1 ∧
          s = field ++ done ++ extra) field es) := by
  induction chars with
  | nil =>
    refine always_pure ?_
    intro field
    exact ⟨fun _ => by simp [replay], [], [], List.prefix_refl _, by simp, by simp⟩
  | cons ch rest ih =>
    unfold forEach
    have hstep : ∀ (typo pause : List Event),
        (typo = [] ∨ ∃ (w : Char) (d1 d2 : Int),
          typo = [Event.input (String.singleton w), Event.sleep d1, Event.press '\x08',
                  Event.sleep d2]) →
        (pause = [] ∨ ∃ d, pause = [Event.sleep d]) → ∀ field : List Char,
        replay (typo ++ Event.input (String.singleton ch) :: pause) field = field ++ [ch] ∧
        allStates (fun s => ∃ done extra : List Char, done <+: ch :: rest ∧
          extra.length ≤ 1 ∧ s = field ++ done ++ extra) field
          (typo ++ Event.input (String.singleton ch) :: pause) := by
      intro typo pause htypo hpause field
      exact typed_char_trace_replay ch typo pause htypo hpause field _
        ⟨[], [], List.nil_prefix, by simp, by simp⟩
        (fun x => ⟨[], [x], List.nil_prefix, by simp, by simp⟩)
    refine always_bind (humanTypeChar_trace c minSpeed maxSpeed ch) ?_ ?_
    · rintro es1 ⟨typo, pause, rfl, htypo, hv | hv⟩
      · intro field
        obtain ⟨_, rfl⟩ := hv
        exact ⟨(fun h => by cases h), (hstep typo [] htypo (Or.inl rfl) field).2⟩
      · cases hv.1
    · rintro _ es1 ⟨typo, pause, rfl, htypo, hv | hv⟩
      · cases hv.1
      · obtain ⟨_, d, rfl⟩ := hv
        refine always_mono ih ?_
        intro es2 v hes2 field
        have hs := hstep typo [Event.sleep d] htypo (Or.inr ⟨d, rfl⟩) field
        obtain ⟨hr2, ha2⟩ := hes2 (field ++ [ch])
        constructor
        · intro hv
          rw [replay_append, hs.1, hr2 hv]
          simp
        · rw [allStates_append, hs.1]
          refine ⟨hs.2, allStates_mono ?_ es2 _ ha2⟩
          rintro s ⟨done, extra, hdone, hextra, rfl⟩
          refine ⟨ch :: done, extra, ?_, hextra, by simp⟩
          obtain ⟨tl, htl⟩ := hdone
          exact ⟨tl, by simp [← htl]⟩

theorem humanType_trace (c : Config) (text : String) (hon : c.Stealth.HumanTyping = true) :
    Always (humanType c text) (fun es v =>
      (v ≠ none → replay es [] = text.toList) ∧
      allStates (PrefixPlusOne text.toList) [] es) := by
  unfold humanType
  rw [if_neg (by simp [hon])]
  have hweak : ∀ (es : List Event) (v : Option Unit),
      (∀ field : List Char, (v = some () → replay es field = field ++ text.toList) ∧
        allStates (fun s => ∃ done extra : List Char, done <+: text.toList ∧
          extra.length ≤ 1 ∧ s = field ++ done ++ extra) field es) →
      (v = some () → replay es [] = text.toList) ∧
        allStates (PrefixPlusOne text.toList) [] es := by
    intro es v h
    obtain ⟨hr, ha⟩ := h []
    refine ⟨fun hv => by simpa using hr hv, allStates_mono ?_ es _ ha⟩
    rintro s ⟨done, extra, hdone, hextra, rfl⟩
    exact ⟨done, extra, hdone, hextra, by simp⟩
  refine always_bind (forEach_humanTypeChar_trace c _ _ text.toList) ?_ ?_
  · intro es h
    exact ⟨fun hv => absurd rfl hv, (hweak es none h).2⟩
  · intro _ es h
    refine always_pure ?_
    simp only [List.append_nil]
    exact ⟨fun _ => (hweak es (some ()) h).1 rfl, (hweak es (some ()) h).2⟩

/-! ### The inputs `humanType` issues -/

/-- One iteration of the loop issues one input more than it issues backspaces, also when
`Intn` panics on the typing bounds after the character. -/
theorem humanTypeChar_trace_counts (c : Config) (minSpeed maxSpeed : Int) (char : Char) :
    Always (humanTypeChar c minSpeed maxSpeed char)
      (fun es _ => inputCount es = 1 + backspaceCount es) := by
  refine always_mono (humanTypeChar_trace c minSpeed maxSpeed char) ?_
  rintro es v ⟨typo, pause, rfl, htypo, hpause⟩
  have hp : inputCount pause = 0 ∧ backspaceCount pause = 0 := by
    rcases hpause with ⟨_, rfl⟩ | ⟨_, d, rfl⟩
    · exact ⟨rfl, rfl⟩
    · exact ⟨rfl, rfl⟩
  have ht : inputCount typo = backspaceCount typo := by
    rcases htypo with rfl | ⟨w, d1, d2, rfl⟩
    · rfl
    · rfl
  simp only [inputCount, backspaceCount, List.countP_append, List.countP_cons] at hp ht ⊢
  simp only [hp.1, hp.2, ht]
  simp
  omega

/-- The inputs of the loop are the characters reached plus the typos: never more than the
characters of the text plus the backspaces, and exactly that many when the loop ends. -/
theorem forEach_humanTypeChar_trace_counts (c : Config) (minSpeed maxSpeed : Int)
    (chars : List Char) :
    Always (forEach (humanTypeChar c minSpeed maxSpeed) chars) (fun es v =>
      inputCount es ≤ chars.length + backspaceCount es ∧
      backspaceCount es ≤ inputCount es ∧
      (v = some () → inputCount es = chars.length + backspaceCount es)) := by
  induction chars with
  | nil => exact always_pure ⟨by simp [inputCount], by simp [backspaceCount], fun _ => rfl⟩
  | cons ch rest ih =>
    unfold forEach
    refine always_bind (humanTypeChar_trace_counts c minSpeed maxSpeed ch) ?_ ?_
    · intro es h
      simp only [List.length_cons]
      exact ⟨by omega, by omega, fun hv => by cases hv⟩
    · intro _ es h
      refine always_mono ih ?_
      intro es2 v h2
      simp only [inputCount, backspaceCount, List.countP_append, List.length_cons] at h h2 ⊢
      exact ⟨by omega, by omega, fun hv => by have := h2.2.2 hv; omega⟩

theorem humanType_trace_counts (c : Config) (text : String)
    (hon : c.Stealth.HumanTyping = true) :
    Always (humanType c text) (fun es v =>
      inputCount es ≤ text.length + backspaceCount es ∧
      backspaceCount es ≤ inputCount es ∧
      (v ≠ none → inputCount es = text.length + backspaceCount es)) := by
  unfold humanType
  rw [if_neg (by simp [hon])]
  refine always_bind (forEach_humanTypeChar_trace_counts c _ _ text.toList) ?_ ?_
  · intro es h
    exact ⟨h.1, h.2.1, fun hv => absurd rfl hv⟩
  · intro _ es h
    refine always_pure ?_
    simp only [List.append_nil]
    exact ⟨h.1, h.2.1, fun _ => h.2.2 rfl⟩

end Bot

/-- C9: with `HumanTyping` on, the events `humanType` issues are a function of the text, the
values the random source delivers and the two typing bounds: two runs that agree on these
(whatever else differs in the configuration or in the history of the source) issue the same
events and return the same value. In every run the number of character inputs is at most the
number of characters of the text plus the number of typos (each typo is followed by one
backspace, which counts it); whenever `humanType` returns it is exactly that number, hence at
least the number of characters; and `humanType` returns whenever the bound it passes to
`Intn` is positive, as it is for every configuration `Validate` accepts (its fields being Go
`int`s). -/
theorem human_type_deterministic_and_counts (c : Config) (text : String)
    (hon : c.Stealth.HumanTyping = true) :
    (∀ (c2 : Config) (r1 r2 : Rand), c2.Stealth.HumanTyping = true →
      c2.Timing.TypingSpeedMinMs = c.Timing.TypingSpeedMinMs →
      c2.Timing.TypingSpeedMaxMs = c.Timing.TypingSpeedMaxMs →
      r1.Agree r2 →
      (Bot.humanType c text r1).events = (Bot.humanType c2 text r2).events ∧
      (Bot.humanType c text r1).value = (Bot.humanType c2 text r2).value) ∧
    (∀ r : Rand,
      inputCount (Bot.humanType c text r).events
        ≤ text.length + backspaceCount (Bot.humanType c text r).events ∧
      backspaceCount (Bot.humanType c text r).events
        ≤ inputCount (Bot.humanType c text r).events) ∧
    (∀ r : Rand, (Bot.humanType c text r).value ≠ none →
      inputCount (Bot.humanType c text r).events
        = text.length + backspaceCount (Bot.humanType c text r).events ∧
      text.length ≤ inputCount (Bot.humanType c text r).events) ∧
    (0 < wrap64 (wrap64 (c.Timing.TypingSpeedMaxMs - c.Timing.TypingSpeedMinMs) + 1) →
      ∀ r : Rand, (Bot.humanType c text r).value = some none) ∧
    (c.Validate = none → isInt64 c.Timing.TypingSpeedMaxMs → ∀ r : Rand,
      (Bot.humanType c text r).value = some none ∧
      inputCount (Bot.humanType c text r).events
        = text.length + backspaceCount (Bot.humanType c text r).events ∧
      text.length ≤ inputCount (Bot.humanType c text r).events) := by
  have hret : 0 < wrap64 (wrap64 (c.Timing.TypingSpeedMaxMs - c.Timing.TypingSpeedMinMs) + 1) →
      ∀ r : Rand, (Bot.humanType c text r).value = some none := by
    intro hbound r
    obtain ⟨err, hv, herr, _⟩ := Bot.humanType_counts c text hon hbound r
    subst herr
    exact hv
  have hwhen : ∀ r : Rand, (Bot.humanType c text r).value ≠ none →
      inputCount (Bot.humanType c text r).events
        = text.length + backspaceCount (Bot.humanType c text r).events ∧
      text.length ≤ inputCount (Bot.humanType c text r).events := by
    intro r hv
    have h := (Bot.humanType_trace_counts c text hon r).2.2 hv
    exact ⟨h, by omega⟩
  refine ⟨?_, ?_, hwhen, hret, ?_⟩
  · intro c2 r1 r2 hon2 hmin hmax hagree
    rw [Bot.humanType_congr c2 c text (by rw [hon, hon2]) hmin hmax]
    obtain ⟨he, hv, _⟩ := Bot.humanType_stable c text r1 r2 hagree
    exact ⟨he, hv⟩
  · intro r
    have h := Bot.humanType_trace_counts c text hon r
    exact ⟨h.1, h.2.1⟩
  · intro hvalid hint r
    have hv := hret (Bot.typing_bound_pos c hvalid hint) r
    have h := hwhen r (by rw [hv]; simp)
    exact ⟨hv, h.1, h.2⟩

/-- The statement of C9 at the default configuration and the text "hello", with two sources
that deliver the same values from different positions: ten inputs, five of them typos. And
at the typing bounds 150 and 50, which `Validate` rejects, the text "hi": `humanType` panics
after the first character, with one input. -/
theorem human_type_deterministic_and_counts_witness :
    ((Bot.humanType DefaultConfig "hello" ⟨fun n => n * 7919 + 13, 0⟩).events
        = (Bot.humanType { DefaultConfig with Stealth := { DefaultConfig.Stealth with
            MouseMovement := false } } "hello" ⟨fun n => (n - 4) * 7919 + 13, 4⟩).events) ∧
    inputCount (Bot.humanType DefaultConfig "hello" ⟨fun n => n * 7919 + 13, 0⟩).events
      = "hello".length + backspaceCount
          (Bot.humanType DefaultConfig "hello" ⟨fun n => n * 7919 + 13, 0⟩).events ∧
    inputCount (Bot.humanType DefaultConfig "hello" ⟨fun n => n * 7919 + 13, 0⟩).events = 10 ∧
    (inputCount (Bot.humanType DefaultConfig "hello" ⟨fun n => n * 7919 + 13, 0⟩).events
      = "hello".length + backspaceCount
          (Bot.humanType DefaultConfig "hello" ⟨fun n => n * 7919 + 13, 0⟩).events ∧
     "hello".length
      ≤ inputCount (Bot.humanType DefaultConfig "hello" ⟨fun n => n * 7919 + 13, 0⟩).events) ∧
    (Bot.humanType DefaultConfig "hello" ⟨fun n => n * 7919 + 13, 0⟩).value = some none ∧
    (Bot.humanType { DefaultConfig with Timing := { DefaultConfig.Timing with
        TypingSpeedMinMs := 150, TypingSpeedMaxMs := 50 } } "hi" ⟨fun _ => 2 ^ 52, 0⟩).value
      = none ∧
    inputCount (Bot.humanType { DefaultConfig with Timing := { DefaultConfig.Timing with
        TypingSpeedMinMs := 150, TypingSpeedMaxMs := 50 } } "hi" ⟨fun _ => 2 ^ 52, 0⟩).events
      = 1 :=
  ⟨((human_type_deterministic_and_counts DefaultConfig "hello" rfl).1 _
      ⟨fun n => n * 7919 + 13, 0⟩ ⟨fun n => (n - 4) * 7919 + 13, 4⟩ rfl rfl rfl
      (fun i => by simp [Nat.add_sub_cancel_left])).1,
   ((human_type_deterministic_and_counts DefaultConfig "hello" rfl).2.2.2.2 (by decide)
      (by unfold isInt64; decide) ⟨fun n => n * 7919 + 13, 0⟩).2.1,
   by decide,
   (human_type_deterministic_and_counts DefaultConfig "hello" rfl).2.2.1
      ⟨fun n => n * 7919 + 13, 0⟩ (by decide),
   (human_type_deterministic_and_counts DefaultConfig "hello" rfl).2.2.2.1 (by decide)
      ⟨fun n => n * 7919 + 13, 0⟩,
   by decide,
   by decide⟩

/-- C13: with `HumanTyping` on, for every text and every random source, the events of
`humanType` replayed on an empty input field (an input appends its character, a backspace
removes the last character) keep the field, before the first event and after every event, a
prefix of the text followed by at most one extra character, so a typo is gone before the
character after it is entered; whenever `humanType` returns, the field contains exactly the
text; and it does return for every configuration `Validate` accepts (its fields being Go
`int`s). -/
theorem human_type_replay_yields_text (c : Config) (text : String) (r : Rand)
    (hon : c.Stealth.HumanTyping = true) :
    allStates (PrefixPlusOne text.toList) [] (Bot.humanType c text r).events ∧
    ((Bot.humanType c text r).value ≠ none →
      replay (Bot.humanType c text r).events [] = text.toList) ∧
    (c.Validate = none → isInt64 c.Timing.TypingSpeedMaxMs →
      (Bot.humanType c text r).value = some none ∧
      replay (Bot.humanType c text r).events [] = text.toList ∧
      String.mk (replay (Bot.humanType c text r).events []) = text) := by
  obtain ⟨hr, ha⟩ := Bot.humanType_trace c text hon r
  refine ⟨ha, hr, ?_⟩
  intro hvalid hint
  obtain ⟨err, hv, herr, _⟩ :=
    Bot.humanType_counts c text hon (Bot.typing_bound_pos c hvalid hint) r
  subst herr
  have hfield := hr (by rw [hv]; simp)
  refine ⟨hv, hfield, ?_⟩
  rw [hfield]
  rfl

/-- The statement of C13 at the default configuration and the text "hello", typed with five
typos. -/
theorem human_type_replay_yields_text_witness :
    backspaceCount (Bot.humanType DefaultConfig "hello" ⟨fun n => n * 7919 + 13, 0⟩).events = 5 ∧
    String.mk (replay (Bot.humanType DefaultConfig "hello" ⟨fun n => n * 7919 + 13, 0⟩).events [])
      = "hello" ∧
    allStates (PrefixPlusOne "hello".toList) []
      (Bot.humanType DefaultConfig "hello" ⟨fun n => n * 7919 + 13, 0⟩).events :=
  ⟨by decide,
   ((human_type_replay_yields_text DefaultConfig "hello" ⟨fun n => n * 7919 + 13, 0⟩ rfl).2.2
      (by decide) (by unfold isInt64; decide)).2.2,
   (human_type_replay_yields_text DefaultConfig "hello" ⟨fun n => n * 7919 + 13, 0⟩ rfl).1⟩

end LinkedinAutomation
